import Mathlib

/-!
Verification development for the winter-square market-data ingestion engine.

Shallow embedding of:
* the ITCH 5.0 parser (src/protocols/itch50/itch50_parser.hpp and
  src/protocols/itch50/itch50_messages.hpp),
* the per-instrument order book (src/include/structures/order_book.hpp),
* the SPSC lock-free ring (src/include/structures/lock_free_queue.hpp),
* the fixed-block memory pool (src/include/memory/memory_pool.hpp),
* the dispatcher (src/core/distribution/dispatcher.hpp) and its
  SPSC queue (src/core/distribution/lockfree_queue.hpp).

Machine integers are modelled as Nat with explicit reduction modulo 2^64 or
2^32 at the operations where the C++ code can wrap.
-/

namespace HftSpec

def U64 : Nat := 2 ^ 64
def U32 : Nat := 2 ^ 32

/-- unordered_map lookup: the first (and, under the insertion discipline of
this code, only) binding of a key. -/
def assocFind {κ β : Type} [DecidableEq κ] (l : List (κ × β)) (k : κ) :
    Option β :=
  match l with
  | [] => none
  | (k0, v) :: rest => if k0 = k then some v else assocFind rest k

/-- unordered_map erase by key: drop the binding of the key. -/
def assocErase {κ β : Type} [DecidableEq κ] (l : List (κ × β)) (k : κ) :
    List (κ × β) :=
  match l with
  | [] => []
  | (k0, v) :: rest => if k0 = k then rest else (k0, v) :: assocErase rest k

namespace Itch

/-- Big-endian u16 read (read_u16_be in itch50_messages.hpp); bytes out of
range read as 0, which never happens under the size guards of the parser. -/
def read_u16_be (bs : List Nat) (off : Nat) : Nat :=
  256 * bs.getD off 0 + bs.getD (off + 1) 0

/-- Big-endian u32 read (read_u32_be in itch50_messages.hpp). -/
def read_u32_be (bs : List Nat) (off : Nat) : Nat :=
  16777216 * bs.getD off 0 + 65536 * bs.getD (off + 1) 0 +
    256 * bs.getD (off + 2) 0 + bs.getD (off + 3) 0

/-- Big-endian u64 read (read_u64_be in itch50_messages.hpp). -/
def read_u64_be (bs : List Nat) (off : Nat) : Nat :=
  read_u32_be bs off * 4294967296 + read_u32_be bs (off + 4)

/-- NormalizedMessage::Type (src/core/types.hpp). -/
inductive NMType where
  | UNKNOWN | TRADE | QUOTE | ORDER_ADD | ORDER_MODIFY
  | ORDER_DELETE | ORDER_EXECUTE | IMBALANCE | SYSTEM_EVENT
deriving DecidableEq, Repr

/-- NormalizedMessage (src/core/types.hpp). price is int64_t; all other
integer fields are unsigned. -/
structure NormalizedMessage where
  type : NMType
  instrument_id : Nat
  order_id : Nat
  price : Int
  quantity : Nat
  side : Nat
  timestamp : Nat
  local_timestamp : Nat
  sequence : Nat
deriving DecidableEq, Repr

/-- Default-constructed NormalizedMessage (all fields zero / UNKNOWN); the
test drivers hand the parser default-constructed output slots, and the
sub-parsers only ever write after their size guard passed, so fields a
sub-parser does not set keep this value. -/
def NormalizedMessage.default0 : NormalizedMessage :=
  ⟨NMType.UNKNOWN, 0, 0, 0, 0, 0, 0, 0, 0⟩

/-- MessageView (src/core/types.hpp): borrowed packet window with capture
timestamp and capture sequence.  The length field always equals the length
of the byte list here. -/
structure MessageView where
  data : List Nat
  timestamp : Nat
  sequence : Nat
deriving DecidableEq, Repr

/-- ItchParser statistics counters and the stock_locate → symbol map
(ItchParser private state). -/
structure ParserState where
  messages_parsed : Nat
  parse_errors : Nat
  stock_map : List (Nat × List Nat)
deriving DecidableEq, Repr

def ParserState.init : ParserState := ⟨0, 0, []⟩

end Itch

/-- unordered_map operator[] assignment: replace the binding if the key is
present, otherwise append it. -/
def assocAssign {κ β : Type} [DecidableEq κ] (l : List (κ × β)) (k : κ)
    (v : β) : List (κ × β) :=
  match l with
  | [] => [(k, v)]
  | (k0, v0) :: rest =>
    if k0 = k then (k0, v) :: rest else (k0, v0) :: assocAssign rest k v

namespace Itch

/-- ItchParser::parse_system_event.  SystemEventMessage::SIZE = 14. -/
def parse_system_event (body : List Nat) (local_ts : Nat) :
    Option NormalizedMessage :=
  if body.length < 14 then none
  else some { NormalizedMessage.default0 with
    type := NMType.SYSTEM_EVENT
    timestamp := read_u64_be body 4
    local_timestamp := local_ts
    instrument_id := 0
    sequence := read_u16_be body 2 }

/-- ItchParser::parse_stock_directory.  StockDirectoryMessage::SIZE = 41;
also records stock_locate → 8-byte symbol in the stock map. -/
def parse_stock_directory (body : List Nat) (local_ts : Nat)
    (map : List (Nat × List Nat)) :
    Option NormalizedMessage × List (Nat × List Nat) :=
  if body.length < 41 then (none, map)
  else
    let locate := read_u16_be body 0
    (some { NormalizedMessage.default0 with
      type := NMType.SYSTEM_EVENT
      timestamp := read_u64_be body 4
      local_timestamp := local_ts
      instrument_id := locate
      sequence := read_u16_be body 2 },
     assocAssign map locate ((body.drop 13).take 8))

/-- ItchParser::parse_add_order.  AddOrderMessage::SIZE = 38; packed offsets:
stock_locate 0, tracking_number 2, timestamp 4, type 12, order_reference 13,
buy_sell_indicator 21, shares 22, stock 26, price 34.  Side::BUY is the
ASCII code 66; output.price receives the raw big-endian u32. -/
def parse_add_order (body : List Nat) (local_ts : Nat) :
    Option NormalizedMessage :=
  if body.length < 38 then none
  else some { NormalizedMessage.default0 with
    type := NMType.ORDER_ADD
    instrument_id := read_u16_be body 0
    order_id := read_u64_be body 13
    timestamp := read_u64_be body 4
    local_timestamp := local_ts
    side := if body.getD 21 0 = 66 then 0 else 1
    quantity := read_u32_be body 22
    price := (read_u32_be body 34 : Int)
    sequence := read_u16_be body 2 }

/-- ItchParser::parse_add_order_mpid.  AddOrderMPIDMessage::SIZE = 42; field
offsets identical to the add-order message, 4-byte attribution ignored. -/
def parse_add_order_mpid (body : List Nat) (local_ts : Nat) :
    Option NormalizedMessage :=
  if body.length < 42 then none
  else some { NormalizedMessage.default0 with
    type := NMType.ORDER_ADD
    instrument_id := read_u16_be body 0
    order_id := read_u64_be body 13
    timestamp := read_u64_be body 4
    local_timestamp := local_ts
    side := if body.getD 21 0 = 66 then 0 else 1
    quantity := read_u32_be body 22
    price := (read_u32_be body 34 : Int)
    sequence := read_u16_be body 2 }

/-- ItchParser::parse_order_executed.  OrderExecutedMessage::SIZE = 33;
executed_shares at offset 21. -/
def parse_order_executed (body : List Nat) (local_ts : Nat) :
    Option NormalizedMessage :=
  if body.length < 33 then none
  else some { NormalizedMessage.default0 with
    type := NMType.ORDER_EXECUTE
    instrument_id := read_u16_be body 0
    order_id := read_u64_be body 13
    timestamp := read_u64_be body 4
    local_timestamp := local_ts
    quantity := read_u32_be body 21
    sequence := read_u16_be body 2 }

/-- ItchParser::parse_order_executed_with_price.
OrderExecutedWithPriceMessage::SIZE = 38; executed_shares at 21,
execution_price at 34 (after match_number 25 and printable 33). -/
def parse_order_executed_with_price (body : List Nat) (local_ts : Nat) :
    Option NormalizedMessage :=
  if body.length < 38 then none
  else some { NormalizedMessage.default0 with
    type := NMType.ORDER_EXECUTE
    instrument_id := read_u16_be body 0
    order_id := read_u64_be body 13
    timestamp := read_u64_be body 4
    local_timestamp := local_ts
    quantity := read_u32_be body 21
    price := (read_u32_be body 34 : Int)
    sequence := read_u16_be body 2 }

/-- ItchParser::parse_order_cancel.  OrderCancelMessage::SIZE = 25;
cancelled_shares at offset 21. -/
def parse_order_cancel (body : List Nat) (local_ts : Nat) :
    Option NormalizedMessage :=
  if body.length < 25 then none
  else some { NormalizedMessage.default0 with
    type := NMType.ORDER_MODIFY
    instrument_id := read_u16_be body 0
    order_id := read_u64_be body 13
    timestamp := read_u64_be body 4
    local_timestamp := local_ts
    quantity := read_u32_be body 21
    sequence := read_u16_be body 2 }

/-- ItchParser::parse_order_delete.  OrderDeleteMessage::SIZE = 21. -/
def parse_order_delete (body : List Nat) (local_ts : Nat) :
    Option NormalizedMessage :=
  if body.length < 21 then none
  else some { NormalizedMessage.default0 with
    type := NMType.ORDER_DELETE
    instrument_id := read_u16_be body 0
    order_id := read_u64_be body 13
    timestamp := read_u64_be body 4
    local_timestamp := local_ts
    sequence := read_u16_be body 2 }

/-- ItchParser::parse_order_replace.  OrderReplaceMessage::SIZE = 37;
new_order_reference_number at 21, shares at 29, price at 33. -/
def parse_order_replace (body : List Nat) (local_ts : Nat) :
    Option NormalizedMessage :=
  if body.length < 37 then none
  else some { NormalizedMessage.default0 with
    type := NMType.ORDER_MODIFY
    instrument_id := read_u16_be body 0
    order_id := read_u64_be body 21
    timestamp := read_u64_be body 4
    local_timestamp := local_ts
    quantity := read_u32_be body 29
    price := (read_u32_be body 33 : Int)
    sequence := read_u16_be body 2 }

/-- ItchParser::parse_trade.  TradeMessage::SIZE = 46; same layout as add
order up to price at offset 34, match_number ignored. -/
def parse_trade (body : List Nat) (local_ts : Nat) :
    Option NormalizedMessage :=
  if body.length < 46 then none
  else some { NormalizedMessage.default0 with
    type := NMType.TRADE
    instrument_id := read_u16_be body 0
    order_id := read_u64_be body 13
    timestamp := read_u64_be body 4
    local_timestamp := local_ts
    side := if body.getD 21 0 = 66 then 0 else 1
    quantity := read_u32_be body 22
    price := (read_u32_be body 34 : Int)
    sequence := read_u16_be body 2 }

/-- ItchParser::parse_message: header guard (13 bytes, counting one parse
error when violated), then dispatch on the ASCII message type at offset 12.
Returns the emitted record (if any), the parse_errors increment, and the
updated stock map.  Unsupported types are skipped without an error. -/
def parse_message (body : List Nat) (local_ts : Nat)
    (map : List (Nat × List Nat)) :
    Option NormalizedMessage × Nat × List (Nat × List Nat) :=
  if body.length < 13 then (none, 1, map)
  else
    match body.getD 12 0 with
    | 83 => (parse_system_event body local_ts, 0, map)              -- 'S'
    | 82 => let (m, map2) := parse_stock_directory body local_ts map -- 'R'
            (m, 0, map2)
    | 65 => (parse_add_order body local_ts, 0, map)                 -- 'A'
    | 70 => (parse_add_order_mpid body local_ts, 0, map)            -- 'F'
    | 69 => (parse_order_executed body local_ts, 0, map)            -- 'E'
    | 67 => (parse_order_executed_with_price body local_ts, 0, map) -- 'C'
    | 88 => (parse_order_cancel body local_ts, 0, map)              -- 'X'
    | 68 => (parse_order_delete body local_ts, 0, map)              -- 'D'
    | 85 => (parse_order_replace body local_ts, 0, map)             -- 'U'
    | 80 => (parse_trade body local_ts, 0, map)                     -- 'P'
    | _ => (none, 0, map)

/-- The framing loop of ItchParser::parse: while at least 3 bytes remain and
fewer than budget records were emitted, read the big-endian length field;
a length below 3 or beyond the remaining bytes counts one parse error and
stops; otherwise the body (length - 2 bytes after the field) is parsed and
the cursor advances by the full frame length. -/
def parseLoopF (local_ts : Nat) :
    Nat → List Nat → Nat → List (Nat × List Nat) →
    List NormalizedMessage × Nat × List (Nat × List Nat)
  | 0, _, _, map => ([], 0, map)
  | fuel + 1, bs, budget, map =>
    if 3 ≤ bs.length ∧ 0 < budget then
      let msg_length := read_u16_be bs 0
      if msg_length < 3 ∨ bs.length < msg_length then ([], 1, map)
      else
        let body := (bs.drop 2).take (msg_length - 2)
        match parse_message body local_ts map with
        | (some m, e, map2) =>
          let r := parseLoopF local_ts fuel (bs.drop msg_length) (budget - 1) map2
          (m :: r.1, e + r.2.1, r.2.2)
        | (none, e, map2) =>
          let r := parseLoopF local_ts fuel (bs.drop msg_length) budget map2
          (r.1, e + r.2.1, r.2.2)
    else ([], 0, map)

/-- The loop with its fuel instantiated to the remaining byte count, a
strict bound on the number of iterations since every accepted frame
consumes msg_length ≥ 3 > 0 bytes. -/
def parseLoop (local_ts : Nat) (bs : List Nat) (budget : Nat)
    (map : List (Nat × List Nat)) :
    List NormalizedMessage × Nat × List (Nat × List Nat) :=
  parseLoopF local_ts bs.length bs budget map

/-- ItchParser::parse: validity and max_messages guard, then the framing
loop; messages_parsed grows by the number of emitted records and
parse_errors by the number of failed validations. -/
def parse (st : ParserState) (view : MessageView) (max_messages : Nat) :
    List NormalizedMessage × ParserState :=
  if view.data.length = 0 ∨ max_messages = 0 then ([], st)
  else
    let r := parseLoop view.timestamp view.data max_messages st.stock_map
    (r.1, { messages_parsed := st.messages_parsed + r.1.length
            parse_errors := st.parse_errors + r.2.1
            stock_map := r.2.2 })

/-- A well-formed AddOrder ('A') body: stock_locate 1, tracking_number 200,
timestamp 5, order_reference 9, buy side, 100 shares, symbol "AAPL    ",
price field 1500000 (the protocol 10^-4 scale encoding of $150). -/
def bodyA : List Nat :=
  [0, 1, 0, 200, 0, 0, 0, 0, 0, 0, 0, 5, 65,
   0, 0, 0, 0, 0, 0, 0, 9, 66, 0, 0, 0, 100,
   65, 65, 80, 76, 32, 32, 32, 32, 0, 22, 227, 96]

/-- One-frame packet around bodyA (frame length field 40 = 2 + 38),
captured at local time 1000 with capture sequence 7. -/
def viewA : MessageView := ⟨[0, 40] ++ bodyA, 1000, 7⟩

/-- The record the parser emits for viewA. -/
def recA : NormalizedMessage :=
  { NormalizedMessage.default0 with
    type := NMType.ORDER_ADD, instrument_id := 1, order_id := 9
    price := 1500000, quantity := 100, side := 0
    timestamp := 5, local_timestamp := 1000, sequence := 200 }

/-- A truncated supported-type frame: declared length 16, so a 14-byte body
whose message-type byte (offset 12) is ASCII 65, below
AddOrderMessage::SIZE = 38 but above the 13-byte header minimum. -/
def viewShortA : MessageView :=
  ⟨[0, 16] ++ [0, 1, 0, 9, 0, 0, 0, 0, 0, 0, 0, 5, 65, 0], 1000, 7⟩

/-- parse_message emission is independent of the stock map: the map is only
written by the stock-directory branch, never read when building a record. -/
theorem parse_message_fst_map_indep (body : List Nat) (ts : Nat)
    (map : List (Nat × List Nat)) :
    (parse_message body ts map).1 = (parse_message body ts []).1 := by
  unfold parse_message
  split
  · rfl
  · split <;> simp [parse_stock_directory] <;> split <;> rfl

/-- Every record a successful parse_message emits carries the packet capture
timestamp as local_timestamp, the tracking number (big-endian u16 at body
offset 2) as sequence, and the frame u64 (offset 4) as exchange
timestamp. -/
theorem parse_message_stamps (body : List Nat) (ts : Nat)
    (map : List (Nat × List Nat)) (m : NormalizedMessage)
    (h : (parse_message body ts map).1 = some m) :
    m.local_timestamp = ts ∧ m.sequence = read_u16_be body 2 ∧
      m.timestamp = read_u64_be body 4 := by
  unfold parse_message at h
  split at h
  · exact absurd h (by simp)
  · split at h <;>
      first
      | (simp only [parse_system_event, parse_add_order, parse_add_order_mpid,
          parse_order_executed, parse_order_executed_with_price,
          parse_order_cancel, parse_order_delete, parse_order_replace,
          parse_trade, parse_stock_directory] at h <;>
         split at h <;> simp_all <;> subst h <;> simp)
      | exact absurd h (by simp)

/-- Every record emitted by the framing loop comes from a successful
parse_message run on some frame body, with the capture timestamp as
local_timestamp. -/
theorem parseLoopF_records (ts : Nat) (fuel : Nat) :
    ∀ (bs : List Nat) (budget : Nat) (map : List (Nat × List Nat))
      (r : NormalizedMessage), r ∈ (parseLoopF ts fuel bs budget map).1 →
      r.local_timestamp = ts ∧ ∃ body : List Nat,
        (parse_message body ts []).1 = some r ∧
        r.sequence = read_u16_be body 2 ∧ r.timestamp = read_u64_be body 4 := by
  induction fuel with
  | zero => intro bs budget map r h; simp [parseLoopF] at h
  | succ n ih =>
    intro bs budget map r h
    rw [parseLoopF] at h
    split at h
    · dsimp only at h
      split at h
      · simp at h
      · split at h
        case _ m e map2 heq =>
          rcases List.mem_cons.mp h with hrm | hrec
          · subst hrm
            have h1 : (parse_message ((bs.drop 2).take (read_u16_be bs 0 - 2))
                ts map).1 = some r := by rw [heq]
            obtain ⟨hl, hs, ht⟩ := parse_message_stamps _ ts map r h1
            refine ⟨hl, (bs.drop 2).take (read_u16_be bs 0 - 2), ?_, hs, ht⟩
            rw [← parse_message_fst_map_indep _ ts map, h1]
          · exact ih _ _ _ _ hrec
        case _ e map2 heq =>
          exact ih _ _ _ _ h
    · simp at h

/-- The fuel argument is irrelevant as long as it bounds the remaining byte
count: every accepted frame consumes at least 3 bytes. -/
theorem parseLoopF_fuel_eq (ts : Nat) :
    ∀ (f1 f2 : Nat) (bs : List Nat) (budget : Nat)
      (map : List (Nat × List Nat)), bs.length ≤ f1 → bs.length ≤ f2 →
      parseLoopF ts f1 bs budget map = parseLoopF ts f2 bs budget map := by
  intro f1
  induction f1 with
  | zero =>
    intro f2 bs budget map h1 h2
    match f2 with
    | 0 => rfl
    | g + 1 =>
      rw [parseLoopF, parseLoopF]
      rw [if_neg]
      omega
  | succ a ih =>
    intro f2 bs budget map h1 h2
    match f2 with
    | 0 =>
      rw [parseLoopF, parseLoopF]
      rw [if_neg]
      omega
    | b + 1 =>
      rw [parseLoopF, parseLoopF]
      by_cases hg : 3 ≤ bs.length ∧ 0 < budget
      · rw [if_pos hg, if_pos hg]
        dsimp only
        by_cases hL : read_u16_be bs 0 < 3 ∨ bs.length < read_u16_be bs 0
        · rw [if_pos hL, if_pos hL]
        · rw [if_neg hL, if_neg hL]
          have hdrop : (bs.drop (read_u16_be bs 0)).length ≤ a ∧
              (bs.drop (read_u16_be bs 0)).length ≤ b := by
            simp only [List.length_drop]
            omega
          cases hpm : parse_message ((bs.drop 2).take (read_u16_be bs 0 - 2))
              ts map with
          | mk o rest =>
            cases o with
            | some m => simp only [ih _ _ _ _ hdrop.1 hdrop.2]
            | none => simp only [ih _ _ _ _ hdrop.1 hdrop.2]
      · rw [if_neg hg, if_neg hg]

end Itch

open Itch in
/-- C1.  The claim requires the emitted price to be the frame's big-endian
price value converted to the internal 10^-8 scale, i.e. multiplied by 10^4.
Evaluating the parser on a well-formed AddOrder frame whose price field is
1500000 shows the record's price is the raw 10^-4 value 1500000, not
1500000 * 10^4: the decoder performs no rescaling anywhere. -/
theorem itch_price_not_rescaled :
    ((parse ParserState.init viewA 8).1.map (fun r => r.price) =
      [(1500000 : Int)]) ∧
    (1500000 : Int) ≠ 1500000 * 10 ^ 4 := by
  constructor
  · decide
  · decide

open Itch in
/-- C5 counterexample.  viewA has capture sequence 7, but its single frame
has tracking number 200; the emitted record's sequence field is 200, not
the packet's capture sequence, refuting the claim as stated. -/
theorem itch_sequence_claim_counterexample :
    ((parse ParserState.init viewA 8).1.map (fun r => r.sequence) =
      [200]) ∧ (200 : Nat) ≠ 7 ∧ viewA.sequence = 7 := by
  refine ⟨by decide, by decide, by decide⟩

open Itch in
/-- C5 amended.  Every record emitted by parse carries the packet's capture
timestamp as local_timestamp and comes from a successful parse_message run
on some frame body, whose big-endian u64 at offset 4 is the record's
exchange timestamp and whose big-endian u16 tracking number at offset 2 —
not the packet's capture sequence — is the record's sequence field. -/
theorem itch_record_stamps_amended (st : ParserState) (view : MessageView)
    (max_messages : Nat) (r : NormalizedMessage)
    (hr : r ∈ (parse st view max_messages).1) :
    r.local_timestamp = view.timestamp ∧ ∃ body : List Nat,
      (parse_message body view.timestamp []).1 = some r ∧
      r.sequence = read_u16_be body 2 ∧ r.timestamp = read_u64_be body 4 := by
  unfold parse at hr
  split at hr
  · simp at hr
  · exact parseLoopF_records view.timestamp view.data.length view.data
      max_messages st.stock_map r hr

open Itch in
/-- Witness for the amended C5 theorem at the concrete packet viewA. -/
theorem itch_record_stamps_amended_witness :
    recA.local_timestamp = viewA.timestamp ∧ ∃ body : List Nat,
      (parse_message body viewA.timestamp []).1 = some recA ∧
      recA.sequence = read_u16_be body 2 ∧
      recA.timestamp = read_u64_be body 4 :=
  itch_record_stamps_amended ParserState.init viewA 8 recA (by decide)

open Itch in
/-- C4 counterexample.  A packet holding a single truncated AddOrder frame
(declared length 16, 14-byte body, type byte 65) fails validation in the
claim's sense — its body is shorter than AddOrderMessage::SIZE = 38 — yet
parse emits no record and leaves parse_errors at 0, not 1. -/
theorem itch_parse_errors_claim_counterexample :
    (parse ParserState.init viewShortA 8).1 = [] ∧
    (parse ParserState.init viewShortA 8).2.parse_errors = 0 ∧
    (0 : Nat) ≠ 1 := by
  refine ⟨by decide, by decide, by decide⟩

namespace Itch

/-- The record parse_add_order builds from a 38-byte body. -/
def addRecord (body : List Nat) (ts : Nat) : NormalizedMessage :=
  { NormalizedMessage.default0 with
    type := NMType.ORDER_ADD
    instrument_id := read_u16_be body 0
    order_id := read_u64_be body 13
    timestamp := read_u64_be body 4
    local_timestamp := ts
    side := if body.getD 21 0 = 66 then 0 else 1
    quantity := read_u32_be body 22
    price := (read_u32_be body 34 : Int)
    sequence := read_u16_be body 2 }

theorem parse_message_addOrder (body : List Nat) (ts : Nat)
    (map : List (Nat × List Nat)) (hlen : body.length = 38)
    (htype : body.getD 12 0 = 65) :
    parse_message body ts map = (some (addRecord body ts), 0, map) := by
  unfold parse_message
  rw [if_neg (by omega), htype]
  simp only [parse_add_order, addRecord, hlen]
  rw [if_neg (by omega)]

theorem parse_message_short_supported (body : List Nat) (ts : Nat)
    (map : List (Nat × List Nat)) (h13 : 13 ≤ body.length)
    (hshort : body.length < 38) (htype : body.getD 12 0 = 65) :
    parse_message body ts map = (none, 0, map) := by
  unfold parse_message
  rw [if_neg (by omega), htype]
  simp only [parse_add_order]
  rw [if_pos (by omega)]

theorem parse_message_short_header (body : List Nat) (ts : Nat)
    (map : List (Nat × List Nat)) (h13 : body.length < 13) :
    parse_message body ts map = (none, 1, map) := by
  unfold parse_message
  rw [if_pos h13]

/-- parse on a packet whose first frame is a well-formed 40-byte AddOrder
frame and whose remainder starts with a frame whose declared length exceeds
the remaining bytes: one record, one parse error. -/
theorem parse_addOrder_then_overlong (st : ParserState) (ts seq : Nat)
    (body tl : List Nat) (mx : Nat) (h38 : body.length = 38)
    (htype : body.getD 12 0 = 65) (h3 : 3 ≤ tl.length)
    (hover : tl.length < read_u16_be tl 0) (hmx : 2 ≤ mx) :
    parse st ⟨0 :: 40 :: (body ++ tl), ts, seq⟩ mx =
      ([addRecord body ts],
       { messages_parsed := st.messages_parsed + 1
         parse_errors := st.parse_errors + 1
         stock_map := st.stock_map }) := by
  have hfuel : (0 :: 40 :: (body ++ tl) : List Nat).length =
      (body ++ tl).length + 1 + 1 := by simp
  have hr16 : read_u16_be (0 :: 40 :: (body ++ tl)) 0 = 40 := by
    simp [read_u16_be]
  have hdrop2 : (0 :: 40 :: (body ++ tl) : List Nat).drop 2 = body ++ tl :=
    rfl
  have htake : (body ++ tl).take (40 - 2) = body := by
    rw [show (40 - 2 : Nat) = 38 from rfl, ← h38, List.take_left]
  have hdrop40 : (0 :: 40 :: (body ++ tl) : List Nat).drop 40 = tl := by
    rw [show (0 :: 40 :: (body ++ tl) : List Nat).drop 40 =
      (body ++ tl).drop 38 from rfl, ← h38, List.drop_left]
  unfold parse
  rw [if_neg (by simp; omega)]
  unfold parseLoop
  rw [hfuel, parseLoopF,
    if_pos ⟨by simp only [List.length_cons, List.length_append]; omega,
      by omega⟩]
  dsimp only
  rw [hr16, if_neg (by simp; omega), hdrop2, htake,
    parse_message_addOrder body ts st.stock_map h38 htype]
  dsimp only
  rw [hdrop40,
    parseLoopF_fuel_eq ts ((body ++ tl).length + 1) (tl.length + 1) tl
      (mx - 1) st.stock_map (by simp only [List.length_append]; omega)
      (by omega),
    parseLoopF, if_pos ⟨h3, by omega⟩]
  dsimp only
  rw [if_pos (Or.inr hover)]
  simp

/-- parse on a single-frame packet: shared framing computation.  The frame
declares length body.length + 2 and carries exactly that body, so the loop
parses one body and then stops on the empty remainder. -/
theorem parse_single_frame (st : ParserState) (ts seq : Nat)
    (body : List Nat) (mx : Nat) (h1 : 1 ≤ body.length)
    (hb : body.length + 2 < 256) (hmx : 1 ≤ mx) :
    parse st ⟨0 :: (body.length + 2) :: body, ts, seq⟩ mx =
      (match parse_message body ts st.stock_map with
       | (some m, e, map2) =>
         ([m], { messages_parsed := st.messages_parsed + 1
                 parse_errors := st.parse_errors + e
                 stock_map := map2 })
       | (none, e, map2) =>
         ([], { messages_parsed := st.messages_parsed
                parse_errors := st.parse_errors + e
                stock_map := map2 })) := by
  have hfuel : (0 :: (body.length + 2) :: body : List Nat).length =
      body.length + 1 + 1 := by simp
  have hr16 : read_u16_be (0 :: (body.length + 2) :: body) 0 =
      body.length + 2 := by simp [read_u16_be]
  have htake : ((0 :: (body.length + 2) :: body : List Nat).drop 2).take
      (body.length + 2 - 2) = body := by
    rw [show (0 :: (body.length + 2) :: body : List Nat).drop 2 = body from
      rfl, show body.length + 2 - 2 = body.length from by omega,
      List.take_length]
  have hdropAll : (0 :: (body.length + 2) :: body : List Nat).drop
      (body.length + 2) = [] := by
    rw [← hfuel, show body.length + 1 + 1 = body.length + 2 from rfl]
    exact List.drop_length _
  unfold parse
  rw [if_neg (by simp only [List.length_cons]; omega)]
  unfold parseLoop
  rw [hfuel, parseLoopF,
    if_pos ⟨by simp only [List.length_cons]; omega, by omega⟩]
  dsimp only
  rw [hr16, if_neg (by simp only [List.length_cons]; omega), htake, hdropAll]
  cases hpm : parse_message body ts st.stock_map with
  | mk o rest =>
    cases o with
    | some m =>
      dsimp only
      rw [parseLoopF, if_neg (by simp)]
      simp
    | none =>
      dsimp only
      rw [parseLoopF, if_neg (by simp)]
      simp

end Itch

open Itch in
/-- C4 amended.  parse_errors is incremented once per frame whose length
field is below the 3-byte minimum or exceeds the remaining bytes (parsing
stops there), and once per frame whose body is below the 13-byte header
minimum; a frame of a supported type whose body is at least 13 bytes but
shorter than the type's fixed size is skipped with no record and NO
parse_errors increment.  In particular a packet with one well-formed
AddOrder frame followed by a frame whose declared length exceeds the
remaining bytes yields exactly one record (the OrderAdd) and exactly one
parse_errors increment. -/
theorem itch_parse_errors_amended :
    (∀ (st : ParserState) (ts seq : Nat) (body tl : List Nat) (mx : Nat),
      body.length = 38 → body.getD 12 0 = 65 → 3 ≤ tl.length →
      tl.length < read_u16_be tl 0 → 2 ≤ mx →
      (parse st ⟨0 :: 40 :: (body ++ tl), ts, seq⟩ mx).1 =
        [addRecord body ts] ∧
      (parse st ⟨0 :: 40 :: (body ++ tl), ts, seq⟩ mx).2.parse_errors =
        st.parse_errors + 1) ∧
    (∀ (st : ParserState) (ts seq : Nat) (body : List Nat) (mx : Nat),
      13 ≤ body.length → body.length < 38 → body.getD 12 0 = 65 → 1 ≤ mx →
      (parse st ⟨0 :: (body.length + 2) :: body, ts, seq⟩ mx).1 = [] ∧
      (parse st ⟨0 :: (body.length + 2) :: body, ts, seq⟩ mx).2.parse_errors
        = st.parse_errors) ∧
    (∀ (st : ParserState) (ts seq : Nat) (body : List Nat) (mx : Nat),
      1 ≤ body.length → body.length < 13 → 1 ≤ mx →
      (parse st ⟨0 :: (body.length + 2) :: body, ts, seq⟩ mx).1 = [] ∧
      (parse st ⟨0 :: (body.length + 2) :: body, ts, seq⟩ mx).2.parse_errors
        = st.parse_errors + 1) := by
  refine ⟨?_, ?_, ?_⟩
  · intro st ts seq body tl mx h38 htype h3 hover hmx
    rw [parse_addOrder_then_overlong st ts seq body tl mx h38 htype h3
      hover hmx]
    exact ⟨rfl, rfl⟩
  · intro st ts seq body mx h13 hshort htype hmx
    rw [parse_single_frame st ts seq body mx (by omega) (by omega) hmx,
      parse_message_short_supported body ts st.stock_map h13 hshort htype]
    exact ⟨rfl, rfl⟩
  · intro st ts seq body mx h1 h13 hmx
    rw [parse_single_frame st ts seq body mx h1 (by omega) hmx,
      parse_message_short_header body ts st.stock_map h13]
    exact ⟨rfl, rfl⟩

open Itch in
/-- Witness for the amended C4 theorem: instantiates all three parts on the
concrete bodies of viewA and viewShortA and a 5-byte header fragment. -/
theorem itch_parse_errors_amended_witness :
    ((parse ParserState.init ⟨0 :: 40 :: (bodyA ++ [0, 99, 0]), 1000, 7⟩
        4).1 = [addRecord bodyA 1000] ∧
     (parse ParserState.init ⟨0 :: 40 :: (bodyA ++ [0, 99, 0]), 1000, 7⟩
        4).2.parse_errors = ParserState.init.parse_errors + 1) ∧
    ((parse ParserState.init
        ⟨0 :: ([0, 1, 0, 9, 0, 0, 0, 0, 0, 0, 0, 5, 65, 0].length + 2) ::
          [0, 1, 0, 9, 0, 0, 0, 0, 0, 0, 0, 5, 65, 0], 1000, 7⟩ 4).1 = [] ∧
     (parse ParserState.init
        ⟨0 :: ([0, 1, 0, 9, 0, 0, 0, 0, 0, 0, 0, 5, 65, 0].length + 2) ::
          [0, 1, 0, 9, 0, 0, 0, 0, 0, 0, 0, 5, 65, 0], 1000,
        7⟩ 4).2.parse_errors = ParserState.init.parse_errors) ∧
    ((parse ParserState.init
        ⟨0 :: ([0, 1, 0, 9, 0].length + 2) :: [0, 1, 0, 9, 0], 1000, 7⟩
        4).1 = [] ∧
     (parse ParserState.init
        ⟨0 :: ([0, 1, 0, 9, 0].length + 2) :: [0, 1, 0, 9, 0], 1000,
        7⟩ 4).2.parse_errors = ParserState.init.parse_errors + 1) :=
  ⟨itch_parse_errors_amended.1 ParserState.init 1000 7 bodyA [0, 99, 0] 4
      (by decide) (by decide) (by decide) (by decide) (by decide),
   itch_parse_errors_amended.2.1 ParserState.init 1000 7
      [0, 1, 0, 9, 0, 0, 0, 0, 0, 0, 0, 5, 65, 0] 4 (by decide) (by decide)
      (by decide) (by decide),
   itch_parse_errors_amended.2.2 ParserState.init 1000 7 [0, 1, 0, 9, 0] 4
      (by decide) (by decide) (by decide)⟩

namespace Spsc

/-- SPSCLockFreeQueue state (src/include/structures/lock_free_queue.hpp):
consumer head index, producer tail index, and the Capacity-slot buffer,
modelled as a total function on indices.  Capacity is the template
parameter, a power of two at least 2; MASK = Capacity - 1. -/
structure State (α : Type) where
  head : Nat
  tail : Nat
  buf : Nat → α

/-- Freshly constructed queue: both indices zero, buffer default. -/
def State.init (α : Type) [Inhabited α] : State α := ⟨0, 0, fun _ => default⟩

/-- SPSCLockFreeQueue::try_enqueue: compute next_tail = (tail + 1) & MASK;
fail when it equals head (queue full), otherwise store at the current tail
and publish next_tail. -/
def try_enqueue (cap : Nat) (s : State α) (v : α) : State α × Bool :=
  let next_tail := (s.tail + 1) &&& (cap - 1)
  if next_tail = s.head then (s, false)
  else ({ s with buf := Function.update s.buf s.tail v, tail := next_tail },
        true)

/-- SPSCLockFreeQueue::try_dequeue: fail when head equals tail (queue
empty), otherwise read the slot at head and publish (head + 1) & MASK.
The out-parameter is modelled as the Option component. -/
def try_dequeue (cap : Nat) (s : State α) : State α × Option α :=
  if s.head = s.tail then (s, none)
  else ({ s with head := (s.head + 1) &&& (cap - 1) }, some (s.buf s.head))

/-- A single-threaded schedule of producer enqueues and consumer
dequeues. -/
inductive Op (α : Type) where
  | enq (v : α)
  | deq

/-- Run a schedule, accumulating the successfully pushed and successfully
popped values in order. -/
def run (cap : Nat) (s : State α) (pushed popped : List α) :
    List (Op α) → State α × List α × List α
  | [] => (s, pushed, popped)
  | Op.enq v :: ops =>
    let r := try_enqueue cap s v
    run cap r.1 (if r.2 then pushed ++ [v] else pushed) popped ops
  | Op.deq :: ops =>
    match try_dequeue cap s with
    | (s2, some v) => run cap s2 pushed (popped ++ [v]) ops
    | (s2, none) => run cap s2 pushed popped ops

/-- The number of occupied slots. -/
def size (cap : Nat) (s : State α) : Nat := (cap + s.tail - s.head) % cap

/-- The queued values in FIFO order, read from the buffer starting at
head. -/
def contents (cap : Nat) (s : State α) : List α :=
  (List.range (size cap s)).map (fun i => s.buf ((s.head + i) % cap))

/-- The run invariant: indices stay below the capacity and the pushed
sequence is exactly the popped sequence followed by the queue contents. -/
def Inv (cap : Nat) (s : State α) (pushed popped : List α) : Prop :=
  s.head < cap ∧ s.tail < cap ∧ pushed = popped ++ contents cap s

theorem mod_two_cases (a cap : Nat) (h : a < 2 * cap) (hc : 0 < cap) :
    a % cap = if a < cap then a else a - cap := by
  split
  case isTrue hlt => exact Nat.mod_eq_of_lt hlt
  case isFalse hge =>
    rw [Nat.mod_eq_sub_mod (by omega)]
    exact Nat.mod_eq_of_lt (by omega)

theorem size_lt (cap : Nat) (hc : 0 < cap) (s : State α) :
    size cap s < cap := Nat.mod_lt _ hc

/-- The slot index of the i-th queued element never collides with the
write slot (the current tail) while i is below the size. -/
theorem slot_fact (cap h t : Nat) (hc : 0 < cap) (hh : h < cap)
    (ht : t < cap) :
    (h + (cap + t - h) % cap) % cap = t ∧
    ∀ i < (cap + t - h) % cap, (h + i) % cap ≠ t := by
  have hsize := mod_two_cases (cap + t - h) cap (by omega) hc
  constructor
  · rw [hsize]
    split
    · rw [mod_two_cases _ _ (by omega) hc]
      split <;> omega
    · rw [mod_two_cases _ _ (by omega) hc]
      split <;> omega
  · intro i hi hcol
    have hmlt := Nat.mod_lt (cap + t - h) hc
    have hicap : i < cap := by omega
    rw [hsize] at hi
    rw [mod_two_cases _ _ (by omega) hc] at hcol
    revert hcol
    split <;> split at hi <;> omega

theorem size_after_enqueue (cap h t : Nat) (hc : 0 < cap) (hh : h < cap)
    (ht : t < cap) (hne : (t + 1) % cap ≠ h) :
    (cap + (t + 1) % cap - h) % cap = (cap + t - h) % cap + 1 := by
  have h1 := mod_two_cases (t + 1) cap (by omega) hc
  rw [h1] at hne ⊢
  by_cases h2 : t + 1 < cap
  · rw [if_pos h2] at hne ⊢
    rw [mod_two_cases _ _ (by omega) hc,
      mod_two_cases (cap + t - h) _ (by omega) hc]
    split <;> split <;> omega
  · rw [if_neg h2] at hne ⊢
    rw [mod_two_cases _ _ (by omega) hc,
      mod_two_cases (cap + t - h) _ (by omega) hc]
    split <;> split <;> omega

theorem size_after_dequeue (cap h t : Nat) (hc : 0 < cap) (hh : h < cap)
    (ht : t < cap) (hne : h ≠ t) :
    (cap + t - (h + 1) % cap) % cap + 1 = (cap + t - h) % cap := by
  have h1 := mod_two_cases (h + 1) cap (by omega) hc
  rw [h1]
  by_cases h2 : h + 1 < cap
  · rw [if_pos h2]
    rw [mod_two_cases _ _ (by omega) hc,
      mod_two_cases (cap + t - h) _ (by omega) hc]
    split <;> split <;> omega
  · rw [if_neg h2]
    rw [mod_two_cases _ _ (by omega) hc,
      mod_two_cases (cap + t - h) _ (by omega) hc]
    split <;> split <;> omega

theorem full_iff_size (cap h t : Nat) (hc : 0 < cap) (hh : h < cap)
    (ht : t < cap) :
    (t + 1) % cap = h ↔ (cap + t - h) % cap = cap - 1 := by
  rw [mod_two_cases (t + 1) _ (by omega) hc,
    mod_two_cases (cap + t - h) _ (by omega) hc]
  split <;> split <;> omega

theorem empty_iff_size (cap h t : Nat) (hc : 0 < cap) (hh : h < cap)
    (ht : t < cap) :
    h = t ↔ (cap + t - h) % cap = 0 := by
  rw [mod_two_cases (cap + t - h) _ (by omega) hc]
  split <;> omega

theorem contents_after_enqueue (cap : Nat) (hc : 0 < cap) (s : State α)
    (v : α) (hh : s.head < cap) (ht : s.tail < cap)
    (hne : (s.tail + 1) % cap ≠ s.head) :
    contents cap { s with buf := Function.update s.buf s.tail v
                          tail := (s.tail + 1) % cap } =
      contents cap s ++ [v] := by
  obtain ⟨hit, hnot⟩ := slot_fact cap s.head s.tail hc hh ht
  unfold contents size
  dsimp only
  rw [size_after_enqueue cap s.head s.tail hc hh ht hne, List.range_succ,
    List.map_append]
  congr 1
  · apply List.map_congr_left
    intro i hi
    exact Function.update_noteq (hnot i (List.mem_range.mp hi)) v s.buf
  · rw [List.map_singleton, hit]
    simp

theorem contents_before_dequeue (cap : Nat) (hc : 0 < cap) (s : State α)
    (hh : s.head < cap) (ht : s.tail < cap) (hne : s.head ≠ s.tail) :
    contents cap s =
      s.buf s.head :: contents cap { s with head := (s.head + 1) % cap } := by
  unfold contents size
  dsimp only
  rw [← size_after_dequeue cap s.head s.tail hc hh ht hne,
    List.range_succ_eq_map, List.map_cons]
  congr 1
  · rw [Nat.add_zero, Nat.mod_eq_of_lt hh]
  · rw [List.map_map]
    apply List.map_congr_left
    intro i _
    simp only [Function.comp_apply]
    rw [Nat.mod_add_mod, show s.head + 1 + i = s.head + i.succ from by omega]

theorem contents_length (cap : Nat) (s : State α) :
    (contents cap s).length = size cap s := by
  simp [contents]

/-- Any schedule run from an invariant state ends in an invariant state. -/
theorem inv_run (cap : Nat) (hc : 0 < cap)
    (hmask : ∀ n : Nat, n &&& (cap - 1) = n % cap) (ops : List (Op α)) :
    ∀ (s : State α) (pushed popped : List α), Inv cap s pushed popped →
      Inv cap (run cap s pushed popped ops).1
        (run cap s pushed popped ops).2.1
        (run cap s pushed popped ops).2.2 := by
  induction ops with
  | nil => intro s pushed popped h; exact h
  | cons op rest ih =>
    intro s pushed popped h
    obtain ⟨hh, ht, hpp⟩ := h
    cases op with
    | enq v =>
      show Inv cap (run cap s pushed popped (Op.enq v :: rest)).1 _ _
      unfold run try_enqueue
      dsimp only
      rw [hmask]
      by_cases hfull : (s.tail + 1) % cap = s.head
      · rw [if_pos hfull]
        exact ih s pushed popped ⟨hh, ht, hpp⟩
      · rw [if_neg hfull]
        dsimp only
        rw [if_pos rfl]
        apply ih
        refine ⟨hh, Nat.mod_lt _ hc, ?_⟩
        rw [hpp, contents_after_enqueue cap hc s v hh ht hfull,
          List.append_assoc]
    | deq =>
      show Inv cap (run cap s pushed popped (Op.deq :: rest)).1 _ _
      unfold run try_dequeue
      by_cases hemp : s.head = s.tail
      · rw [if_pos hemp]
        exact ih s pushed popped ⟨hh, ht, hpp⟩
      · rw [if_neg hemp]
        dsimp only
        rw [hmask]
        apply ih
        refine ⟨Nat.mod_lt _ hc, ht, ?_⟩
        rw [hpp, contents_before_dequeue cap hc s hh ht hemp,
          List.append_assoc]
        rfl

end Spsc

open Spsc in
/-- C3.  For every schedule of try_enqueue/try_dequeue operations on an
initially empty power-of-two SPSC ring: the successfully pushed sequence
equals the successfully popped sequence followed by the current queue
contents (so the popped values are a prefix of the pushed values: FIFO
order, nothing lost after a successful push, nothing delivered twice), a
push fails exactly when the ring holds Capacity - 1 values (Capacity - 1
usable slots), and a pop fails exactly when the ring is empty. -/
theorem spsc_fifo (k : Nat) (α : Type) [Inhabited α]
    (ops : List (Op α)) (hk : 1 ≤ k) :
    (run (2 ^ k) (State.init α) [] [] ops).2.1 =
      (run (2 ^ k) (State.init α) [] [] ops).2.2 ++
        contents (2 ^ k) (run (2 ^ k) (State.init α) [] [] ops).1 ∧
    (∀ v : α,
      (try_enqueue (2 ^ k) (run (2 ^ k) (State.init α) [] [] ops).1 v).2 =
        false ↔
      (contents (2 ^ k) (run (2 ^ k) (State.init α) [] [] ops).1).length =
        2 ^ k - 1) ∧
    ((try_dequeue (2 ^ k) (run (2 ^ k) (State.init α) [] [] ops).1).2 =
        none ↔
      (contents (2 ^ k) (run (2 ^ k) (State.init α) [] [] ops).1).length =
        0) := by
  have hc : 0 < 2 ^ k := Nat.pos_pow_of_pos k (by omega)
  have hmask : ∀ n : Nat, n &&& (2 ^ k - 1) = n % 2 ^ k := fun n =>
    Nat.and_pow_two_sub_one_eq_mod n k
  have hinit : Inv (2 ^ k) (State.init α) ([] : List α) ([] : List α) := by
    refine ⟨hc, hc, ?_⟩
    simp [contents, size, State.init, Nat.mod_self]
  obtain ⟨hh, ht, hpp⟩ :=
    inv_run (2 ^ k) hc hmask ops (State.init α) [] [] hinit
  set s := (run (2 ^ k) (State.init α) [] [] ops).1
  refine ⟨hpp, ?_, ?_⟩
  · intro v
    unfold try_enqueue
    dsimp only
    rw [hmask, contents_length]
    by_cases hfull : (s.tail + 1) % 2 ^ k = s.head
    · rw [if_pos hfull]
      simpa using (full_iff_size (2 ^ k) s.head s.tail hc hh ht).mp hfull
    · rw [if_neg hfull]
      constructor
      · intro hab; exact absurd hab (by simp)
      · intro hsz
        exact absurd ((full_iff_size (2 ^ k) s.head s.tail hc hh ht).mpr hsz)
          hfull
  · unfold try_dequeue
    rw [contents_length]
    by_cases hemp : s.head = s.tail
    · rw [if_pos hemp]
      simpa using (empty_iff_size (2 ^ k) s.head s.tail hc hh ht).mp hemp
    · rw [if_neg hemp]
      constructor
      · intro hab; exact absurd hab (by simp)
      · intro hsz
        exact absurd ((empty_iff_size (2 ^ k) s.head s.tail hc hh ht).mpr hsz)
          hemp

open Spsc in
/-- Witness for C3: a two-slot ring, one successful push of 5 and one
successful pop. -/
theorem spsc_fifo_witness :
    (run (2 ^ 1) (State.init Nat) [] [] [Op.enq 5, Op.deq]).2.1 =
      (run (2 ^ 1) (State.init Nat) [] [] [Op.enq 5, Op.deq]).2.2 ++
        contents (2 ^ 1)
          (run (2 ^ 1) (State.init Nat) [] [] [Op.enq 5, Op.deq]).1 ∧
    (∀ v : Nat,
      (try_enqueue (2 ^ 1)
        (run (2 ^ 1) (State.init Nat) [] [] [Op.enq 5, Op.deq]).1 v).2 =
        false ↔
      (contents (2 ^ 1)
        (run (2 ^ 1) (State.init Nat) [] [] [Op.enq 5, Op.deq]).1).length =
        2 ^ 1 - 1) ∧
    ((try_dequeue (2 ^ 1)
        (run (2 ^ 1) (State.init Nat) [] [] [Op.enq 5, Op.deq]).1).2 =
        none ↔
      (contents (2 ^ 1)
        (run (2 ^ 1) (State.init Nat) [] [] [Op.enq 5, Op.deq]).1).length =
        0) :=
  spsc_fifo 1 Nat [Op.enq 5, Op.deq] (by decide)

namespace Book

/-- Side (src/include/common/types.hpp): INVALID sentinel, BUY, SELL. -/
inductive Side where
  | INVALID
  | BUY
  | SELL
deriving DecidableEq, Repr

/-- Order (src/include/structures/order_book.hpp).  The intrusive
next_order/prev_order links are represented by the chain lists of the
levels; the timestamp is the steady-clock reading passed to the mutating
operation. -/
structure Order where
  id : Nat
  price : Int
  quantity : Nat
  side : Side
  timestamp : Nat
deriving DecidableEq, Repr

/-- PriceLevel: price, running total quantity (uint64), order count
(uint32), and the FIFO chain of order ids from first_order to
last_order. -/
structure PriceLevel where
  price : Int
  total_quantity : Nat
  order_count : Nat
  chain : List Nat
deriving DecidableEq, Repr

instance : Inhabited PriceLevel := ⟨⟨0, 0, 0, []⟩⟩

/-- PriceLevel::add_order: append to the FIFO chain, add the quantity,
bump the count. -/
def PriceLevel.addOrder (lvl : PriceLevel) (o : Order) : PriceLevel :=
  { lvl with chain := lvl.chain ++ [o.id]
             total_quantity := (lvl.total_quantity + o.quantity) % U64
             order_count := (lvl.order_count + 1) % U32 }

/-- PriceLevel::remove_order: unlink the order, subtract its quantity
(uint64 wraparound subtraction), drop the count (uint32). -/
def PriceLevel.removeOrder (lvl : PriceLevel) (o : Order) : PriceLevel :=
  { lvl with chain := lvl.chain.erase o.id
             total_quantity :=
               (lvl.total_quantity + (U64 - o.quantity % U64)) % U64
             order_count := (lvl.order_count + (U32 - 1)) % U32 }

/-- PriceLevel::update_quantity: total_quantity - old + new in uint64
arithmetic; the chain is untouched. -/
def PriceLevel.updateQuantity (lvl : PriceLevel) (old_qty new_qty : Nat) :
    PriceLevel :=
  { lvl with total_quantity :=
      (lvl.total_quantity + (U64 - old_qty % U64) + new_qty) % U64 }

/-- OrderBook state: the live prefixes of the two level arrays (bids
descending, asks ascending), the id → Order map, the two price → index
maps, the remaining capacity of the backing ObjectPool of Orders, and the
statistics counters. -/
structure OrderBookState where
  bid_levels : List PriceLevel
  ask_levels : List PriceLevel
  orders : List (Nat × Order)
  price_to_level_bid : List (Int × Nat)
  price_to_level_ask : List (Int × Nat)
  pool_available : Nat
  stats_adds : Nat
  stats_modifies : Nat
  stats_cancels : Nat
deriving DecidableEq, Repr

def MAX_PRICE_LEVELS : Nat := 1000

/-- A freshly constructed book backed by a pool with the given number of
free Order blocks. -/
def OrderBookState.empty (pool : Nat) : OrderBookState :=
  ⟨[], [], [], [], [], pool, 0, 0, 0⟩

/-- In-place modification of one array slot (bid_levels_[n] = f ...).
An index at or beyond the live prefix would be an out-of-bounds array
write in the C++ (undefined behaviour); the model leaves the state
unchanged there, and no theorem below depends on that case. -/
def modifyIdx : List α → Nat → (α → α) → List α
  | [], _, _ => []
  | a :: rest, 0, f => f a :: rest
  | a :: rest, n + 1, f => a :: modifyIdx rest n f

/-- The binary-search loop of OrderBook::find_bid_insertion_point, with a
fuel argument bounding the iteration count (r - l shrinks every step, so
the initial array length is enough fuel; exhausted fuel returns l exactly
when l = r). -/
def bidSearchGo (levels : List PriceLevel) (price : Int) :
    Nat → Nat → Nat → Nat
  | 0, l, _ => l
  | fuel + 1, l, r =>
    if l < r then
      let mid := (l + r) / 2
      if price < (levels.getD mid default).price then
        bidSearchGo levels price fuel (mid + 1) r
      else
        bidSearchGo levels price fuel l mid
    else l

/-- OrderBook::find_bid_insertion_point: binary search for the slot of a
price in the descending bid array. -/
def find_bid_insertion_point (levels : List PriceLevel) (price : Int) :
    Nat :=
  bidSearchGo levels price levels.length 0 levels.length

/-- The binary-search loop of OrderBook::find_ask_insertion_point. -/
def askSearchGo (levels : List PriceLevel) (price : Int) :
    Nat → Nat → Nat → Nat
  | 0, l, _ => l
  | fuel + 1, l, r =>
    if l < r then
      let mid := (l + r) / 2
      if (levels.getD mid default).price < price then
        askSearchGo levels price fuel (mid + 1) r
      else
        askSearchGo levels price fuel l mid
    else l

/-- OrderBook::find_ask_insertion_point: binary search in the ascending
ask array. -/
def find_ask_insertion_point (levels : List PriceLevel) (price : Int) :
    Nat :=
  askSearchGo levels price levels.length 0 levels.length

/-- OrderBook::insert_bid_level: silently returns when the side already
holds MAX_PRICE_LEVELS levels; otherwise shifts the tail up, writes a
fresh level at the index, records price → index, and re-indexes the
shifted levels (the loop from index + 1 to the old count runs over the
post-shift array). -/
def insert_bid_level (s : OrderBookState) (index : Nat) (price : Int) :
    OrderBookState :=
  if MAX_PRICE_LEVELS ≤ s.bid_levels.length then s
  else
    let levels2 := s.bid_levels.insertIdx index ⟨price, 0, 0, []⟩
    let m1 := assocAssign s.price_to_level_bid price index
    let m2 := (List.range' (index + 1) (s.bid_levels.length - index)).foldl
      (fun acc i => assocAssign acc (levels2.getD i default).price i) m1
    { s with bid_levels := levels2, price_to_level_bid := m2 }

/-- OrderBook::insert_ask_level, symmetric. -/
def insert_ask_level (s : OrderBookState) (index : Nat) (price : Int) :
    OrderBookState :=
  if MAX_PRICE_LEVELS ≤ s.ask_levels.length then s
  else
    let levels2 := s.ask_levels.insertIdx index ⟨price, 0, 0, []⟩
    let m1 := assocAssign s.price_to_level_ask price index
    let m2 := (List.range' (index + 1) (s.ask_levels.length - index)).foldl
      (fun acc i => assocAssign acc (levels2.getD i default).price i) m1
    { s with ask_levels := levels2, price_to_level_ask := m2 }

/-- OrderBook::remove_bid_level: guard, erase the price from the map,
shift the tail down, and re-index the shifted levels (the loop from index
to the decremented count runs over the post-shift array). -/
def remove_bid_level (s : OrderBookState) (index : Nat) : OrderBookState :=
  if s.bid_levels.length ≤ index then s
  else
    let price := (s.bid_levels.getD index default).price
    let m1 := assocErase s.price_to_level_bid price
    let levels2 := s.bid_levels.eraseIdx index
    let m2 := (List.range' index (s.bid_levels.length - 1 - index)).foldl
      (fun acc i => assocAssign acc (levels2.getD i default).price i) m1
    { s with bid_levels := levels2, price_to_level_bid := m2 }

/-- OrderBook::remove_ask_level, symmetric. -/
def remove_ask_level (s : OrderBookState) (index : Nat) : OrderBookState :=
  if s.ask_levels.length ≤ index then s
  else
    let price := (s.ask_levels.getD index default).price
    let m1 := assocErase s.price_to_level_ask price
    let levels2 := s.ask_levels.eraseIdx index
    let m2 := (List.range' index (s.ask_levels.length - 1 - index)).foldl
      (fun acc i => assocAssign acc (levels2.getD i default).price i) m1
    { s with ask_levels := levels2, price_to_level_ask := m2 }

/-- OrderBook::add_order.  Rejects quantity 0, price 0, duplicate ids, and
pool exhaustion; otherwise allocates the order (timestamped with the
clock reading t), records it in the id map, and adds it to the existing
level of its price or to a freshly inserted one.  Note the C++ calls
bid_levels_[index].add_order(order) even when insert_bid_level declined
to insert because the side is full. -/
def add_order (t : Nat) (s : OrderBookState) (id : Nat) (price : Int)
    (quantity : Nat) (side : Side) : OrderBookState × Bool :=
  if quantity = 0 ∨ price = 0 then (s, false)
  else if (assocFind s.orders id).isSome then (s, false)
  else if s.pool_available = 0 then (s, false)
  else
    let o : Order := ⟨id, price, quantity, side, t⟩
    let s1 := { s with pool_available := s.pool_available - 1
                       orders := assocAssign s.orders id o }
    if side = Side.BUY then
      match assocFind s1.price_to_level_bid price with
      | some idx =>
        ({ s1 with
             bid_levels := modifyIdx s1.bid_levels idx
               (fun lvl => lvl.addOrder o)
             stats_adds := s1.stats_adds + 1 }, true)
      | none =>
        let index := find_bid_insertion_point s1.bid_levels price
        let s2 := insert_bid_level s1 index price
        ({ s2 with
             bid_levels := modifyIdx s2.bid_levels index
               (fun lvl => lvl.addOrder o)
             stats_adds := s2.stats_adds + 1 }, true)
    else
      match assocFind s1.price_to_level_ask price with
      | some idx =>
        ({ s1 with
             ask_levels := modifyIdx s1.ask_levels idx
               (fun lvl => lvl.addOrder o)
             stats_adds := s1.stats_adds + 1 }, true)
      | none =>
        let index := find_ask_insertion_point s1.ask_levels price
        let s2 := insert_ask_level s1 index price
        ({ s2 with
             ask_levels := modifyIdx s2.ask_levels index
               (fun lvl => lvl.addOrder o)
             stats_adds := s2.stats_adds + 1 }, true)

/-- OrderBook::cancel_order: unlink from the level chain, drop the level
when it empties, erase the id, return the Order block to the pool. -/
def cancel_order (s : OrderBookState) (id : Nat) : OrderBookState × Bool :=
  match assocFind s.orders id with
  | none => (s, false)
  | some o =>
    let s1 :=
      if o.side = Side.BUY then
        match assocFind s.price_to_level_bid o.price with
        | some idx =>
          let s2 := { s with
            bid_levels :=
              modifyIdx s.bid_levels idx (fun lvl => lvl.removeOrder o) }
          if (s2.bid_levels.getD idx default).order_count = 0 then
            remove_bid_level s2 idx
          else s2
        | none => s
      else
        match assocFind s.price_to_level_ask o.price with
        | some idx =>
          let s2 := { s with
            ask_levels :=
              modifyIdx s.ask_levels idx (fun lvl => lvl.removeOrder o) }
          if (s2.ask_levels.getD idx default).order_count = 0 then
            remove_ask_level s2 idx
          else s2
        | none => s
    ({ s1 with orders := assocErase s1.orders id
               pool_available := s1.pool_available + 1
               stats_cancels := s1.stats_cancels + 1 }, true)

/-- OrderBook::modify_order: quantity 0 is a cancel; an unknown id fails;
an unchanged quantity returns true immediately (before the timestamp
refresh); otherwise the level total is adjusted by (new - old), and the
order record gets the new quantity and a fresh clock reading. -/
def modify_order (t : Nat) (s : OrderBookState) (id : Nat)
    (new_quantity : Nat) : OrderBookState × Bool :=
  if new_quantity = 0 then cancel_order s id
  else
    match assocFind s.orders id with
    | none => (s, false)
    | some o =>
      if o.quantity = new_quantity then (s, true)
      else
        let s1 :=
          if o.side = Side.BUY then
            match assocFind s.price_to_level_bid o.price with
            | some idx =>
              { s with
                bid_levels := modifyIdx s.bid_levels idx
                  (fun lvl => lvl.updateQuantity o.quantity new_quantity) }
            | none => s
          else
            match assocFind s.price_to_level_ask o.price with
            | some idx =>
              { s with
                ask_levels := modifyIdx s.ask_levels idx
                  (fun lvl => lvl.updateQuantity o.quantity new_quantity) }
            | none => s
        ({ s1 with
             orders := assocAssign s1.orders id
               { o with quantity := new_quantity, timestamp := t }
             stats_modifies := s1.stats_modifies + 1 }, true)

theorem modifyIdx_map {α β : Type} (g : α → β) (f : α → α)
    (hf : ∀ x, g (f x) = g x) :
    ∀ (l : List α) (n : Nat), (modifyIdx l n f).map g = l.map g
  | [], _ => rfl
  | a :: rest, 0 => by simp [modifyIdx, hf]
  | a :: rest, n + 1 => by
    simp [modifyIdx, modifyIdx_map g f hf rest n]

theorem modifyIdx_length {α : Type} (f : α → α) :
    ∀ (l : List α) (n : Nat), (modifyIdx l n f).length = l.length
  | [], _ => rfl
  | _ :: rest, 0 => rfl
  | _ :: rest, n + 1 => by
    simp [modifyIdx, modifyIdx_length f rest n]

theorem modifyIdx_getD_ne {α : Type} (f : α → α) (d : α) :
    ∀ (l : List α) (n i : Nat), i ≠ n →
      (modifyIdx l n f).getD i d = l.getD i d := by
  intro l
  induction l with
  | nil => intro n i h; rfl
  | cons a rest ih =>
    intro n i h
    match n, i with
    | 0, 0 => exact absurd rfl h
    | 0, i + 1 => rfl
    | n + 1, 0 => rfl
    | n + 1, i + 1 =>
      show (modifyIdx rest n f).getD i d = rest.getD i d
      exact ih n i (by omega)

theorem assocFind_assign_self {κ β : Type} [DecidableEq κ]
    (l : List (κ × β)) (k : κ) (v : β) :
    assocFind (assocAssign l k v) k = some v := by
  induction l with
  | nil => simp [assocAssign, assocFind]
  | cons p rest ih =>
    obtain ⟨k0, v0⟩ := p
    unfold assocAssign
    by_cases h : k0 = k
    · rw [if_pos h]
      unfold assocFind
      rw [if_pos h]
    · rw [if_neg h]
      unfold assocFind
      rw [if_neg h]
      exact ih

theorem assocFind_assign_ne {κ β : Type} [DecidableEq κ]
    (l : List (κ × β)) (k j : κ) (v : β) (hne : j ≠ k) :
    assocFind (assocAssign l k v) j = assocFind l j := by
  induction l with
  | nil => simp [assocAssign, assocFind, Ne.symm hne]
  | cons p rest ih =>
    obtain ⟨k0, v0⟩ := p
    unfold assocAssign
    by_cases h : k0 = k
    · rw [if_pos h]
      unfold assocFind
      have hk0j : ¬k0 = j := fun h2 => hne (h2.symm.trans h)
      rw [if_neg hk0j, if_neg hk0j]
    · rw [if_neg h]
      unfold assocFind
      by_cases h2 : k0 = j
      · rw [if_pos h2, if_pos h2]
      · rw [if_neg h2, if_neg h2]
        exact ih

theorem assocAssign_keys {κ β : Type} [DecidableEq κ]
    (l : List (κ × β)) (k : κ) (v : β)
    (h : (assocFind l k).isSome = true) :
    (assocAssign l k v).map Prod.fst = l.map Prod.fst := by
  induction l with
  | nil => simp [assocFind] at h
  | cons p rest ih =>
    obtain ⟨k0, v0⟩ := p
    unfold assocFind at h
    unfold assocAssign
    by_cases hk : k0 = k
    · rw [if_pos hk]
      simp
    · rw [if_neg hk]
      rw [if_neg hk] at h
      simp only [List.map_cons]
      rw [ih h]

/-- The frame-relevant shape of a level: everything except the running
total quantity. -/
def levelShape (lvl : PriceLevel) : Int × List Nat × Nat :=
  (lvl.price, lvl.chain, lvl.order_count)

theorem getD_range_map {β : Type} (f : Nat → β) (d : β) (m j : Nat)
    (hj : j < m) : (((List.range m).map f).getD j d) = f j := by
  rw [List.getD_eq_getElem?_getD, List.getElem?_map, List.getElem?_range hj]
  rfl

theorem assocFind_eq_none {κ β : Type} [DecidableEq κ]
    (l : List (κ × β)) (k : κ) (h : ∀ p ∈ l, ¬p.1 = k) :
    assocFind l k = none := by
  induction l with
  | nil => rfl
  | cons p rest ih =>
    obtain ⟨k0, v0⟩ := p
    unfold assocFind
    rw [if_neg (h (k0, v0) (List.mem_cons_self _ _))]
    exact ih (fun q hq => h q (List.mem_cons_of_mem _ hq))

theorem assocAssign_append {κ β : Type} [DecidableEq κ]
    (l : List (κ × β)) (k : κ) (v : β) (h : ∀ p ∈ l, ¬p.1 = k) :
    assocAssign l k v = l ++ [(k, v)] := by
  induction l with
  | nil => rfl
  | cons p rest ih =>
    obtain ⟨k0, v0⟩ := p
    unfold assocAssign
    rw [if_neg (h (k0, v0) (List.mem_cons_self _ _))]
    rw [ih (fun q hq => h q (List.mem_cons_of_mem _ hq))]
    rfl

theorem assocFind_append_last {κ β : Type} [DecidableEq κ]
    (l : List (κ × β)) (k : κ) (v : β) (h : ∀ p ∈ l, ¬p.1 = k) :
    assocFind (l ++ [(k, v)]) k = some v := by
  induction l with
  | nil => simp [assocFind]
  | cons p rest ih =>
    obtain ⟨k0, v0⟩ := p
    show assocFind ((k0, v0) :: (rest ++ [(k, v)])) k = some v
    unfold assocFind
    rw [if_neg (h (k0, v0) (List.mem_cons_self _ _))]
    exact ih (fun q hq => h q (List.mem_cons_of_mem _ hq))

theorem assocAssign_append_last {κ β : Type} [DecidableEq κ]
    (l : List (κ × β)) (k : κ) (v w : β) (h : ∀ p ∈ l, ¬p.1 = k) :
    assocAssign (l ++ [(k, v)]) k w = l ++ [(k, w)] := by
  induction l with
  | nil => simp [assocAssign]
  | cons p rest ih =>
    obtain ⟨k0, v0⟩ := p
    show assocAssign ((k0, v0) :: (rest ++ [(k, v)])) k w = _
    unfold assocAssign
    rw [if_neg (h (k0, v0) (List.mem_cons_self _ _))]
    rw [ih (fun q hq => h q (List.mem_cons_of_mem _ hq))]
    rfl

theorem modifyIdx_append_self {α : Type} (f : α → α) (x : α) :
    ∀ (l : List α), modifyIdx (l ++ [x]) l.length f = l ++ [f x]
  | [] => rfl
  | a :: rest => by
    show a :: modifyIdx (rest ++ [x]) rest.length f = _
    rw [modifyIdx_append_self f x rest]
    rfl

/-- When every live level in [l, r) has a price above the probe, the
bid-insertion binary search runs its left bound all the way to r. -/
theorem bidSearchGo_all_gt (levels : List PriceLevel) (price : Int) :
    ∀ (fuel l r : Nat), l ≤ r → r - l ≤ fuel →
      (∀ j, l ≤ j → j < r → price < (levels.getD j default).price) →
      bidSearchGo levels price fuel l r = r := by
  intro fuel
  induction fuel with
  | zero =>
    intro l r h1 h2 h3
    have hlr : l = r := by omega
    rw [bidSearchGo, hlr]
  | succ n ih =>
    intro l r h1 h2 h3
    rw [bidSearchGo]
    by_cases hlr : l < r
    · rw [if_pos hlr]
      dsimp only
      rw [if_pos (h3 ((l + r) / 2) (by omega) (by omega))]
      exact ih ((l + r) / 2 + 1) r (by omega) (by omega)
        (fun j hj1 hj2 => h3 j (by omega) hj2)
    · rw [if_neg hlr]
      omega

/-- When no live level in [l, r) has a price above the probe, the
bid-insertion binary search collapses its right bound onto l. -/
theorem bidSearchGo_all_le (levels : List PriceLevel) (price : Int) :
    ∀ (fuel l r : Nat), l ≤ r → r - l ≤ fuel →
      (∀ j, l ≤ j → j < r → ¬price < (levels.getD j default).price) →
      bidSearchGo levels price fuel l r = l := by
  intro fuel
  induction fuel with
  | zero =>
    intro l r h1 h2 h3
    rw [bidSearchGo]
  | succ n ih =>
    intro l r h1 h2 h3
    rw [bidSearchGo]
    by_cases hlr : l < r
    · rw [if_pos hlr]
      dsimp only
      rw [if_neg (h3 ((l + r) / 2) (by omega) (by omega))]
      exact ih l ((l + r) / 2) (by omega) (by omega)
        (fun j hj1 hj2 => h3 j hj1 (by omega))
    · rw [if_neg hlr]

/-- A book mutation, as issued by the decoder: the clock reading is the
explicit t argument. -/
inductive BookOp where
  | add (t : Nat) (id : Nat) (price : Int) (qty : Nat) (side : Side)
  | modify (t : Nat) (id : Nat) (qty : Nat)
  | cancel (id : Nat)

/-- Apply a sequence of mutations. -/
def runBook (s : OrderBookState) : List BookOp → OrderBookState
  | [] => s
  | BookOp.add t id p q sd :: ops => runBook (add_order t s id p q sd).1 ops
  | BookOp.modify t id q :: ops => runBook (modify_order t s id q).1 ops
  | BookOp.cancel id :: ops => runBook (cancel_order s id).1 ops

theorem runBook_append (a b : List BookOp) :
    ∀ s : OrderBookState, runBook s (a ++ b) = runBook (runBook s a) b := by
  induction a with
  | nil => intro s; rfl
  | cons op rest ih =>
    intro s
    cases op with
    | add t id p q sd => exact ih _
    | modify t id q => exact ih _
    | cancel id => exact ih _

/-- n adds of one-lot buy orders at strictly descending prices 1000,
999, ..., 1001 - n, with id equal to the price. -/
def descOps (n : Nat) : List BookOp :=
  (List.range n).map
    (fun i => BookOp.add 0 (1000 - i) ((1000 - i : Nat) : Int) 1 Side.BUY)

def fullBidOrder (p : Nat) : Order := ⟨p, (p : Int), 1, Side.BUY, 0⟩

def mkLvl (p : Nat) : PriceLevel := ⟨(p : Int), 1, 1, [p]⟩

/-- The book state after the first m adds of descOps on a fresh book
backed by pool free Order blocks. -/
def S (pool m : Nat) : OrderBookState :=
  { bid_levels := (List.range m).map (fun i => mkLvl (1000 - i))
    ask_levels := []
    orders := (List.range m).map
      (fun i => (1000 - i, fullBidOrder (1000 - i)))
    price_to_level_bid := (List.range m).map
      (fun i => (((1000 - i : Nat) : Int), i))
    price_to_level_ask := []
    pool_available := pool - m
    stats_adds := m
    stats_modifies := 0
    stats_cancels := 0 }

theorem insertIdx_of_length {α : Type} (l : List α) (n : Nat) (x : α)
    (h : l.length = n) : l.insertIdx n x = l ++ [x] := by
  subst h
  exact List.insertIdx_length_self l x

theorem modifyIdx_of_length_append {α : Type} (f : α → α) (x : α)
    (l : List α) (n : Nat) (h : l.length = n) :
    modifyIdx (l ++ [x]) n f = l ++ [f x] := by
  subst h
  exact modifyIdx_append_self f x l

theorem one_mod_u64 : 1 % U64 = 1 := by decide

theorem one_mod_u32 : 1 % U32 = 1 := by decide

/-- One step of the descending-price add sequence: the m-th add (price and
id 1000 - m) appends a fresh one-order level at the tail of the bid
array. -/
theorem add_desc_step (pool m : Nat) (hm : m < 1000) (hp : m < pool) :
    add_order 0 (S pool m) (1000 - m) ((1000 - m : Nat) : Int) 1 Side.BUY =
      (S pool (m + 1), true) := by
  have hkey : ∀ p ∈ (List.range m).map
      (fun i => (1000 - i, fullBidOrder (1000 - i))),
      ¬p.1 = 1000 - m := by
    intro p hp2
    simp only [List.mem_map, List.mem_range] at hp2
    obtain ⟨i, hi, rfl⟩ := hp2
    dsimp only
    omega
  have hpkey : ∀ p ∈ (List.range m).map
      (fun i => (((1000 - i : Nat) : Int), i)),
      ¬p.1 = ((1000 - m : Nat) : Int) := by
    intro p hp2
    simp only [List.mem_map, List.mem_range] at hp2
    obtain ⟨i, hi, rfl⟩ := hp2
    dsimp only
    rw [Int.natCast_inj]
    omega
  have hfind : assocFind (S pool m).orders (1000 - m) = none :=
    assocFind_eq_none _ _ hkey
  have hpfind : assocFind (S pool m).price_to_level_bid
      ((1000 - m : Nat) : Int) = none := assocFind_eq_none _ _ hpkey
  have hlen : (S pool m).bid_levels.length = m := by simp [S]
  have hsearch : find_bid_insertion_point (S pool m).bid_levels
      ((1000 - m : Nat) : Int) = m := by
    show find_bid_insertion_point
      ((List.range m).map (fun i => mkLvl (1000 - i)))
      ((1000 - m : Nat) : Int) = m
    unfold find_bid_insertion_point
    rw [show ((List.range m).map (fun i => mkLvl (1000 - i))).length = m
      from by simp]
    refine bidSearchGo_all_gt _ _ m 0 m (by omega) (by omega) ?_
    intro j hj1 hj2
    rw [getD_range_map _ _ m j hj2]
    show ((1000 - m : Nat) : Int) < ((1000 - j : Nat) : Int)
    rw [Nat.cast_lt]
    omega
  have hSsucc : S pool (m + 1) =
      { bid_levels := (List.range m).map (fun i => mkLvl (1000 - i)) ++
          [mkLvl (1000 - m)]
        ask_levels := []
        orders := (List.range m).map
            (fun i => (1000 - i, fullBidOrder (1000 - i))) ++
          [(1000 - m, fullBidOrder (1000 - m))]
        price_to_level_bid := (List.range m).map
            (fun i => (((1000 - i : Nat) : Int), i)) ++
          [(((1000 - m : Nat) : Int), m)]
        price_to_level_ask := []
        pool_available := pool - m - 1
        stats_adds := m + 1
        stats_modifies := 0
        stats_cancels := 0 } := by
    unfold S
    simp only [List.range_succ, List.map_append, List.map_singleton]
    rw [show pool - (m + 1) = pool - m - 1 from by omega]
  unfold add_order
  rw [if_neg (by
    intro hor
    rcases hor with h1 | h2
    · exact one_ne_zero h1
    · rw [Int.natCast_eq_zero] at h2
      omega)]
  rw [hfind]
  rw [if_neg (by simp)]
  rw [if_neg (show ¬(S pool m).pool_available = 0 from by
    show ¬pool - m = 0
    omega)]
  dsimp only
  rw [if_pos rfl]
  show (match assocFind (S pool m).price_to_level_bid
      ((1000 - m : Nat) : Int) with
    | some idx => _
    | none => _) = _
  rw [hpfind]
  dsimp only
  rw [hsearch]
  unfold insert_bid_level
  rw [if_neg (by
    rw [hlen]
    unfold MAX_PRICE_LEVELS
    omega)]
  dsimp only
  rw [insertIdx_of_length _ _ _ hlen]
  rw [assocAssign_append ((S pool m).price_to_level_bid) _ _ hpkey]
  rw [hlen, Nat.sub_self]
  rw [hSsucc]
  rw [modifyIdx_of_length_append _ _ ((S pool m).bid_levels) m hlen]
  rw [assocAssign_append ((S pool m).orders) _ _ hkey]
  rfl

/-- The first m adds of descOps, run from a fresh book, produce exactly
the closed-form state S pool m. -/
theorem runBook_desc (pool : Nat) :
    ∀ m : Nat, m ≤ 1000 → m ≤ pool →
      runBook (OrderBookState.empty pool) (descOps m) = S pool m := by
  intro m
  induction m with
  | zero => intro h1 h2; rfl
  | succ n ih =>
    intro h1 h2
    have hsplit : descOps (n + 1) = descOps n ++
        [BookOp.add 0 (1000 - n) ((1000 - n : Nat) : Int) 1 Side.BUY] := by
      unfold descOps
      rw [List.range_succ, List.map_append, List.map_singleton]
    rw [hsplit, runBook_append, ih (by omega) (by omega)]
    show (add_order 0 (S pool n) (1000 - n) ((1000 - n : Nat) : Int) 1
      Side.BUY).1 = S pool (n + 1)
    rw [add_desc_step pool n (by omega) (by omega)]

/-- The order whose insertion the full bid side should refuse. -/
def corruptOrder : Order := ⟨1001, 2000, 5, Side.BUY, 7⟩

/-- The same order after the later modify_order (quantity 7, time 9). -/
def corruptOrder9 : Order := ⟨1001, 2000, 7, Side.BUY, 9⟩

/-- The book after adding corruptOrder to the full bid side of S 32768
1000: insert_bid_level declined, yet the order was appended to the level
priced 1000 sitting at the insertion index 0, and add_order reported
success. -/
def T1 : OrderBookState :=
  { bid_levels := ⟨((1000 : Nat) : Int), 6, 2, [1000, 1001]⟩ ::
      (List.range' 1 999).map (fun i => mkLvl (1000 - i))
    ask_levels := []
    orders := (List.range 1000).map
        (fun i => (1000 - i, fullBidOrder (1000 - i))) ++
      [(1001, corruptOrder)]
    price_to_level_bid := (List.range 1000).map
      (fun i => (((1000 - i : Nat) : Int), i))
    price_to_level_ask := []
    pool_available := 32768 - 1000 - 1
    stats_adds := 1001
    stats_modifies := 0
    stats_cancels := 0 }

/-- T1 after modify_order(1001, 7): price 2000 is absent from the bid
price-index map, so the level total is not adjusted while the order's
quantity changes. -/
def T2 : OrderBookState :=
  { bid_levels := ⟨((1000 : Nat) : Int), 6, 2, [1000, 1001]⟩ ::
      (List.range' 1 999).map (fun i => mkLvl (1000 - i))
    ask_levels := []
    orders := (List.range 1000).map
        (fun i => (1000 - i, fullBidOrder (1000 - i))) ++
      [(1001, corruptOrder9)]
    price_to_level_bid := (List.range 1000).map
      (fun i => (((1000 - i : Nat) : Int), i))
    price_to_level_ask := []
    pool_available := 32768 - 1000 - 1
    stats_adds := 1001
    stats_modifies := 1
    stats_cancels := 0 }

theorem full_keys_ne_1001 : ∀ p ∈ (List.range 1000).map
    (fun i => (1000 - i, fullBidOrder (1000 - i))), ¬p.1 = 1001 := by
  intro p hp2
  simp only [List.mem_map, List.mem_range] at hp2
  obtain ⟨i, hi, rfl⟩ := hp2
  dsimp only
  omega

theorem full_price_keys_ne_2000 : ∀ p ∈ (List.range 1000).map
    (fun i => (((1000 - i : Nat) : Int), i)), ¬p.1 = (2000 : Int) := by
  intro p hp2
  simp only [List.mem_map, List.mem_range] at hp2
  obtain ⟨i, hi, rfl⟩ := hp2
  dsimp only
  rw [show (2000 : Int) = ((2000 : Nat) : Int) from rfl, Int.natCast_inj]
  omega

theorem full_levels_cons : (List.range 1000).map
    (fun i => mkLvl (1000 - i)) =
    mkLvl 1000 :: (List.range' 1 999).map (fun i => mkLvl (1000 - i)) := by
  rw [List.range_eq_range', List.range'_succ 0 999 1]
  rfl

theorem full_orders_cons : (List.range 1000).map
    (fun i => (1000 - i, fullBidOrder (1000 - i))) =
    (1000, fullBidOrder 1000) ::
      (List.range' 1 999).map (fun i => (1000 - i, fullBidOrder (1000 - i)))
    := by
  rw [List.range_eq_range', List.range'_succ 0 999 1]
  rfl

set_option maxRecDepth 16000 in
/-- Evaluating add_order on the full bid side: success is reported and the
level priced 1000 receives the order priced 2000. -/
theorem add_full_eval :
    add_order 7 (S 32768 1000) 1001 2000 5 Side.BUY = (T1, true) := by
  have hfind : assocFind (S 32768 1000).orders 1001 = none :=
    assocFind_eq_none _ _ full_keys_ne_1001
  have hpfind : assocFind (S 32768 1000).price_to_level_bid (2000 : Int) =
      none := assocFind_eq_none _ _ full_price_keys_ne_2000
  have hlen : (S 32768 1000).bid_levels.length = 1000 := by simp [S]
  have hsearch : find_bid_insertion_point (S 32768 1000).bid_levels
      (2000 : Int) = 0 := by
    show find_bid_insertion_point
      ((List.range 1000).map (fun i => mkLvl (1000 - i))) (2000 : Int) = 0
    unfold find_bid_insertion_point
    rw [show ((List.range 1000).map (fun i => mkLvl (1000 - i))).length =
      1000 from by simp]
    refine bidSearchGo_all_le _ _ 1000 0 1000 (by omega) (by omega) ?_
    intro j hj1 hj2
    rw [getD_range_map _ _ 1000 j hj2]
    show ¬(2000 : Int) < ((1000 - j : Nat) : Int)
    rw [Int.not_lt, show (2000 : Int) = ((2000 : Nat) : Int) from rfl,
      Nat.cast_le]
    omega
  unfold add_order
  rw [if_neg (by
    intro hor
    rcases hor with h1 | h2
    · exact absurd h1 (by omega)
    · exact absurd h2 (by decide))]
  rw [hfind]
  rw [if_neg (by simp)]
  rw [if_neg (show ¬(S 32768 1000).pool_available = 0 from by
    show ¬32768 - 1000 = 0
    omega)]
  dsimp only
  rw [if_pos rfl]
  rw [hpfind]
  dsimp only
  rw [hsearch]
  unfold insert_bid_level
  rw [if_pos (by
    rw [hlen]
    unfold MAX_PRICE_LEVELS
    omega)]
  rw [assocAssign_append ((S 32768 1000).orders) _ _ full_keys_ne_1001]
  show (_, true) = (T1, true)
  rw [show (S 32768 1000).bid_levels =
    mkLvl 1000 :: (List.range' 1 999).map (fun i => mkLvl (1000 - i))
    from full_levels_cons]
  rfl

set_option maxRecDepth 16000 in
/-- Evaluating the follow-up modify_order on the corrupted book: the bid
price-index map has no entry for 2000, so only the order record changes
while level 0 keeps total_quantity 6. -/
theorem modify_corrupt_eval : modify_order 9 T1 1001 7 = (T2, true) := by
  have hfind : assocFind T1.orders 1001 = some corruptOrder :=
    assocFind_append_last _ _ _ full_keys_ne_1001
  have hpfind : assocFind T1.price_to_level_bid
      (corruptOrder.price) = none :=
    assocFind_eq_none _ _ full_price_keys_ne_2000
  unfold modify_order
  rw [if_neg (by omega)]
  rw [hfind]
  dsimp only
  rw [if_neg (by decide)]
  rw [if_pos (show corruptOrder.side = Side.BUY from rfl)]
  rw [hpfind]
  dsimp only
  rw [show T1.orders = (List.range 1000).map
    (fun i => (1000 - i, fullBidOrder (1000 - i))) ++ [(1001, corruptOrder)]
    from rfl]
  rw [assocAssign_append_last _ _ _ _ full_keys_ne_1001]
  rfl

/-- The spec invariant: the sum of the chained orders' quantities at a
level, looked up through the id map (missing ids count 0). -/
def chainQuantitySum (s : OrderBookState) (lvl : PriceLevel) : Nat :=
  (lvl.chain.map
    (fun oid => ((assocFind s.orders oid).map Order.quantity).getD 0)).sum

set_option maxRecDepth 16000 in
theorem T2_find_1000 :
    assocFind T2.orders 1000 = some (fullBidOrder 1000) := by
  show assocFind ((List.range 1000).map
    (fun i => (1000 - i, fullBidOrder (1000 - i))) ++
    [(1001, corruptOrder9)]) 1000 = some (fullBidOrder 1000)
  rw [full_orders_cons, List.cons_append]
  unfold assocFind
  rw [if_pos rfl]

set_option maxRecDepth 16000 in
theorem T2_find_1001 : assocFind T2.orders 1001 = some corruptOrder9 :=
  assocFind_append_last _ _ _ full_keys_ne_1001

end Book

open Book in
set_option maxRecDepth 16000 in
/-- C6.  A bid side already holding MAX_PRICE_LEVELS = 1000 levels
(reached from the empty book by the 1000 descending-price adds of
descOps) should reject a valid new order at a fresh price, leaving the
book unchanged.  Instead add_order returns true and mutates the book:
insert_bid_level silently declines, and the order priced 2000 is appended
to the FIFO chain of the best level, which keeps its price 1000. -/
theorem add_order_full_side_bug :
    runBook (OrderBookState.empty 32768) (descOps 1000) = S 32768 1000 ∧
    (add_order 7 (S 32768 1000) 1001 2000 5 Side.BUY).2 = true ∧
    ((add_order 7 (S 32768 1000) 1001 2000 5 Side.BUY).1.bid_levels.getD 0
      default).price = (1000 : Int) ∧
    ((add_order 7 (S 32768 1000) 1001 2000 5 Side.BUY).1.bid_levels.getD 0
      default).chain = [1000, 1001] ∧
    (add_order 7 (S 32768 1000) 1001 2000 5 Side.BUY).1 ≠ S 32768 1000 := by
  refine ⟨runBook_desc 32768 1000 (by omega) (by omega), ?_, ?_, ?_, ?_⟩
  · rw [add_full_eval]
  · rw [add_full_eval]
    rfl
  · rw [add_full_eval]
    rfl
  · rw [add_full_eval]
    intro h
    have hS : ((S 32768 1000).bid_levels.getD 0 default).chain = [1000] := by
      show (((List.range 1000).map
        (fun i => mkLvl (1000 - i))).getD 0 default).chain = [1000]
      rw [getD_range_map _ _ 1000 0 (by omega)]
      rfl
    have hc := congrArg
      (fun st : OrderBookState => (st.bid_levels.getD 0 default).chain) h
    dsimp only at hc
    rw [hS] at hc
    exact absurd hc (by decide)

open Book in
set_option maxRecDepth 16000 in
/-- C2.  A 1002-operation mutation sequence from the empty book (1000
descending-price bid adds, one further add on the now-full side, then a
modify of that last order) drives the book into a state where the best
bid level's chain holds quantities summing to 8 while the level's
total_quantity is 6: the per-level quantity invariant claimed for every
mutation sequence is violated. -/
theorem order_book_sum_invariant_violated :
    runBook (OrderBookState.empty 32768)
      (descOps 1000 ++
        [BookOp.add 7 1001 2000 5 Side.BUY, BookOp.modify 9 1001 7]) =
      T2 ∧
    (T2.bid_levels.getD 0 default).chain = [1000, 1001] ∧
    chainQuantitySum T2 (T2.bid_levels.getD 0 default) = 8 ∧
    (T2.bid_levels.getD 0 default).total_quantity = 6 ∧
    (8 : Nat) ≠ 6 := by
  refine ⟨?_, rfl, ?_, rfl, by omega⟩
  · rw [runBook_append, runBook_desc 32768 1000 (by omega) (by omega)]
    show (modify_order 9
      (add_order 7 (S 32768 1000) 1001 2000 5 Side.BUY).1 1001 7).1 = T2
    rw [add_full_eval]
    show (modify_order 9 T1 1001 7).1 = T2
    rw [modify_corrupt_eval]
  · show ((([1000, 1001] : List Nat)).map
      (fun oid => ((assocFind T2.orders oid).map Order.quantity).getD
        0)).sum = 8
    rw [List.map_cons, List.map_cons, List.map_nil]
    rw [T2_find_1000, T2_find_1001]
    rfl

open Book in
/-- C7 counterexample.  After adding order 1 (quantity 100) at clock time
5, modify_order at clock time 9 with the unchanged quantity 100 returns
true but leaves the order's timestamp at 5: the early return fires before
the timestamp refresh, so the claim that only the timestamp is updated (to
the new clock reading) fails. -/
theorem modify_same_qty_timestamp_counterexample :
    (modify_order 9 (add_order 5 (OrderBookState.empty 10) 1 10 100
      Side.BUY).1 1 100).2 = true ∧
    ((assocFind (modify_order 9 (add_order 5 (OrderBookState.empty 10) 1 10
      100 Side.BUY).1 1 100).1.orders 1).map (fun o => o.timestamp)) =
      some 5 ∧
    (5 : Nat) ≠ 9 :=
  ⟨by decide, by decide, by decide⟩

open Book in
/-- C7 amended.  modify_order with the order's current (nonzero) quantity
returns true and is a complete no-op: the entire book state, the order's
timestamp included, is unchanged. -/
theorem modify_same_qty_noop_amended (t : Nat) (s : OrderBookState)
    (id q : Nat) (o : Order) (hfind : assocFind s.orders id = some o)
    (hq : o.quantity = q) (hq0 : q ≠ 0) :
    modify_order t s id q = (s, true) := by
  unfold modify_order
  rw [if_neg hq0, hfind]
  dsimp only
  rw [if_pos hq]

open Book in
/-- Witness for the amended C7 theorem on a one-order book. -/
theorem modify_same_qty_noop_amended_witness :
    modify_order 9 (add_order 5 (OrderBookState.empty 10) 1 10 100
      Side.BUY).1 1 100 =
    ((add_order 5 (OrderBookState.empty 10) 1 10 100 Side.BUY).1, true) :=
  modify_same_qty_noop_amended 9
    (add_order 5 (OrderBookState.empty 10) 1 10 100 Side.BUY).1 1 100
    ⟨1, 10, 100, Side.BUY, 5⟩ (by decide) (by decide) (by decide)

open Book in
/-- C10.  For any state, any id present in the id map and any nonzero new
quantity, modify_order succeeds and changes at most the named order's
quantity and timestamp and the total_quantity of the level its price maps
to: level prices, FIFO chains and order counts on both sides, both
price-index maps, the pool, the id-map key sequence, and every other order
are unchanged — so the order keeps its chain position (time priority) even
when its quantity increases. -/
theorem modify_order_frame (t : Nat) (s : OrderBookState) (id q : Nat)
    (o : Order) (hfind : assocFind s.orders id = some o) (hq0 : q ≠ 0) :
    (modify_order t s id q).2 = true ∧
    (modify_order t s id q).1.bid_levels.map levelShape =
      s.bid_levels.map levelShape ∧
    (modify_order t s id q).1.ask_levels.map levelShape =
      s.ask_levels.map levelShape ∧
    (modify_order t s id q).1.price_to_level_bid = s.price_to_level_bid ∧
    (modify_order t s id q).1.price_to_level_ask = s.price_to_level_ask ∧
    (modify_order t s id q).1.pool_available = s.pool_available ∧
    (modify_order t s id q).1.orders.map Prod.fst =
      s.orders.map Prod.fst ∧
    (∀ j, j ≠ id → assocFind (modify_order t s id q).1.orders j =
      assocFind s.orders j) ∧
    (∃ o2, assocFind (modify_order t s id q).1.orders id = some o2 ∧
      o2.id = o.id ∧ o2.price = o.price ∧ o2.side = o.side) ∧
    (o.side = Side.BUY →
      (modify_order t s id q).1.ask_levels = s.ask_levels) ∧
    (¬o.side = Side.BUY →
      (modify_order t s id q).1.bid_levels = s.bid_levels) ∧
    (∀ i, o.side = Side.BUY →
      ¬assocFind s.price_to_level_bid o.price = some i →
      ((modify_order t s id q).1.bid_levels.getD i default).total_quantity
        = (s.bid_levels.getD i default).total_quantity) ∧
    (∀ i, ¬o.side = Side.BUY →
      ¬assocFind s.price_to_level_ask o.price = some i →
      ((modify_order t s id q).1.ask_levels.getD i default).total_quantity
        = (s.ask_levels.getD i default).total_quantity) := by
  unfold modify_order
  rw [if_neg hq0, hfind]
  dsimp only
  by_cases hsame : o.quantity = q
  · rw [if_pos hsame]
    exact ⟨rfl, rfl, rfl, rfl, rfl, rfl, rfl, fun j _ => rfl,
      ⟨o, hfind, rfl, rfl, rfl⟩, fun _ => rfl, fun _ => rfl,
      fun i _ _ => rfl, fun i _ _ => rfl⟩
  · rw [if_neg hsame]
    dsimp only
    by_cases hside : o.side = Side.BUY
    · rw [if_pos hside]
      cases hidx : assocFind s.price_to_level_bid o.price with
      | none =>
        exact ⟨rfl, rfl, rfl, rfl, rfl, rfl,
          assocAssign_keys s.orders id _ (by rw [hfind]; rfl),
          fun j hj => assocFind_assign_ne s.orders id j _ hj,
          ⟨_, assocFind_assign_self s.orders id _, rfl, rfl, rfl⟩,
          fun _ => rfl, fun hns => absurd hside hns,
          fun i _ _ => rfl, fun i hns _ => absurd hside hns⟩
      | some idx =>
        dsimp only
        refine ⟨rfl,
          modifyIdx_map levelShape
            (fun lvl => lvl.updateQuantity o.quantity q) (fun x => rfl)
            s.bid_levels idx,
          rfl, rfl, rfl, rfl,
          assocAssign_keys s.orders id _ (by rw [hfind]; rfl),
          fun j hj => assocFind_assign_ne s.orders id j _ hj,
          ⟨_, assocFind_assign_self s.orders id _, rfl, rfl, rfl⟩,
          fun _ => rfl, fun hns => absurd hside hns,
          fun i _ hne => ?_, fun i hns _ => absurd hside hns⟩
        exact congrArg PriceLevel.total_quantity
          (modifyIdx_getD_ne (fun lvl => lvl.updateQuantity o.quantity q)
            default s.bid_levels idx i (fun heq => hne (by rw [heq])))
    · rw [if_neg hside]
      cases hidx : assocFind s.price_to_level_ask o.price with
      | none =>
        exact ⟨rfl, rfl, rfl, rfl, rfl, rfl,
          assocAssign_keys s.orders id _ (by rw [hfind]; rfl),
          fun j hj => assocFind_assign_ne s.orders id j _ hj,
          ⟨_, assocFind_assign_self s.orders id _, rfl, rfl, rfl⟩,
          fun hbs => absurd hbs hside, fun _ => rfl,
          fun i hbs _ => absurd hbs hside, fun i _ _ => rfl⟩
      | some idx =>
        dsimp only
        refine ⟨rfl, rfl,
          modifyIdx_map levelShape
            (fun lvl => lvl.updateQuantity o.quantity q) (fun x => rfl)
            s.ask_levels idx,
          rfl, rfl, rfl,
          assocAssign_keys s.orders id _ (by rw [hfind]; rfl),
          fun j hj => assocFind_assign_ne s.orders id j _ hj,
          ⟨_, assocFind_assign_self s.orders id _, rfl, rfl, rfl⟩,
          fun hbs => absurd hbs hside, fun _ => rfl,
          fun i hbs _ => absurd hbs hside, fun i _ hne => ?_⟩
        exact congrArg PriceLevel.total_quantity
          (modifyIdx_getD_ne (fun lvl => lvl.updateQuantity o.quantity q)
            default s.ask_levels idx i (fun heq => hne (by rw [heq])))

open Book in
/-- Witness for C10 on a one-order book: raising the quantity from 100 to
170 at clock time 9. -/
theorem modify_order_frame_witness :
    ((modify_order 9 (add_order 5 (OrderBookState.empty 10) 1 10 100
      Side.BUY).1 1 170).2 = true) ∧
    ((modify_order 9 (add_order 5 (OrderBookState.empty 10) 1 10 100
      Side.BUY).1 1 170).1.bid_levels.map levelShape =
      (add_order 5 (OrderBookState.empty 10) 1 10 100
        Side.BUY).1.bid_levels.map levelShape) ∧
    ((modify_order 9 (add_order 5 (OrderBookState.empty 10) 1 10 100
      Side.BUY).1 1 170).1.ask_levels.map levelShape =
      (add_order 5 (OrderBookState.empty 10) 1 10 100
        Side.BUY).1.ask_levels.map levelShape) ∧
    ((modify_order 9 (add_order 5 (OrderBookState.empty 10) 1 10 100
      Side.BUY).1 1 170).1.price_to_level_bid =
      (add_order 5 (OrderBookState.empty 10) 1 10 100
        Side.BUY).1.price_to_level_bid) ∧
    ((modify_order 9 (add_order 5 (OrderBookState.empty 10) 1 10 100
      Side.BUY).1 1 170).1.price_to_level_ask =
      (add_order 5 (OrderBookState.empty 10) 1 10 100
        Side.BUY).1.price_to_level_ask) ∧
    ((modify_order 9 (add_order 5 (OrderBookState.empty 10) 1 10 100
      Side.BUY).1 1 170).1.pool_available =
      (add_order 5 (OrderBookState.empty 10) 1 10 100
        Side.BUY).1.pool_available) ∧
    ((modify_order 9 (add_order 5 (OrderBookState.empty 10) 1 10 100
      Side.BUY).1 1 170).1.orders.map Prod.fst =
      (add_order 5 (OrderBookState.empty 10) 1 10 100
        Side.BUY).1.orders.map Prod.fst) ∧
    (∀ j, j ≠ 1 →
      assocFind (modify_order 9 (add_order 5 (OrderBookState.empty 10) 1 10
        100 Side.BUY).1 1 170).1.orders j =
      assocFind (add_order 5 (OrderBookState.empty 10) 1 10 100
        Side.BUY).1.orders j) ∧
    (∃ o2, assocFind (modify_order 9 (add_order 5 (OrderBookState.empty 10)
        1 10 100 Side.BUY).1 1 170).1.orders 1 = some o2 ∧
      o2.id = (⟨1, 10, 100, Side.BUY, 5⟩ : Order).id ∧
      o2.price = (⟨1, 10, 100, Side.BUY, 5⟩ : Order).price ∧
      o2.side = (⟨1, 10, 100, Side.BUY, 5⟩ : Order).side) ∧
    ((⟨1, 10, 100, Side.BUY, 5⟩ : Order).side = Side.BUY →
      (modify_order 9 (add_order 5 (OrderBookState.empty 10) 1 10 100
        Side.BUY).1 1 170).1.ask_levels =
      (add_order 5 (OrderBookState.empty 10) 1 10 100
        Side.BUY).1.ask_levels) ∧
    (¬(⟨1, 10, 100, Side.BUY, 5⟩ : Order).side = Side.BUY →
      (modify_order 9 (add_order 5 (OrderBookState.empty 10) 1 10 100
        Side.BUY).1 1 170).1.bid_levels =
      (add_order 5 (OrderBookState.empty 10) 1 10 100
        Side.BUY).1.bid_levels) ∧
    (∀ i, (⟨1, 10, 100, Side.BUY, 5⟩ : Order).side = Side.BUY →
      ¬assocFind (add_order 5 (OrderBookState.empty 10) 1 10 100
        Side.BUY).1.price_to_level_bid
        (⟨1, 10, 100, Side.BUY, 5⟩ : Order).price = some i →
      ((modify_order 9 (add_order 5 (OrderBookState.empty 10) 1 10 100
        Side.BUY).1 1 170).1.bid_levels.getD i default).total_quantity =
      ((add_order 5 (OrderBookState.empty 10) 1 10 100
        Side.BUY).1.bid_levels.getD i default).total_quantity) ∧
    (∀ i, ¬(⟨1, 10, 100, Side.BUY, 5⟩ : Order).side = Side.BUY →
      ¬assocFind (add_order 5 (OrderBookState.empty 10) 1 10 100
        Side.BUY).1.price_to_level_ask
        (⟨1, 10, 100, Side.BUY, 5⟩ : Order).price = some i →
      ((modify_order 9 (add_order 5 (OrderBookState.empty 10) 1 10 100
        Side.BUY).1 1 170).1.ask_levels.getD i default).total_quantity =
      ((add_order 5 (OrderBookState.empty 10) 1 10 100
        Side.BUY).1.ask_levels.getD i default).total_quantity) :=
  modify_order_frame 9
    (add_order 5 (OrderBookState.empty 10) 1 10 100 Side.BUY).1 1 170
    ⟨1, 10, 100, Side.BUY, 5⟩ (by decide) (by decide)

namespace Pool

/-- MemoryPool<BlockSize, BlockCount> state
(src/include/memory/memory_pool.hpp): the lock-free LIFO free list
(addresses of free blocks, head first) and the allocated counter.
Addresses are byte offsets; storage starts at base and block i starts at
base + i * stride where stride = sizeof(Block) (cache-line padded).  The
union puts data at offset 0, so allocate returns the block address
itself. -/
structure PoolState where
  free_list : List Nat
  allocated_count : Nat
deriving DecidableEq, Repr

/-- initialize_free_list: block i links to block i + 1, head at block 0,
so the free list is the blocks in address order. -/
def initPool (base stride count : Nat) : PoolState :=
  ⟨(List.range count).map (fun i => base + i * stride), 0⟩

/-- MemoryPool::allocate: pop the free-list head (null on exhaustion),
bump allocated_count (uint64). -/
def allocate (s : PoolState) : PoolState × Option Nat :=
  match s.free_list with
  | [] => (s, none)
  | b :: rest => (⟨rest, (s.allocated_count + 1) % U64⟩, some b)

/-- MemoryPool::deallocate: push the block back as the new head, drop
allocated_count (uint64 wraparound subtraction). -/
def deallocate (s : PoolState) (p : Nat) : PoolState :=
  ⟨p :: s.free_list, (s.allocated_count + (U64 - 1)) % U64⟩

/-- MemoryPool::owns: ptr != null and memory_ <= ptr < memory_ +
TOTAL_SIZE, a pure address-range check that never consults the free
list (base > 0 plays the role of the non-null check). -/
def owns (base stride count : Nat) (p : Nat) : Bool :=
  decide (base ≤ p ∧ p < base + stride * count)

/-- Every free-list entry lies inside the pool storage. -/
def FreeInRange (base stride count : Nat) (s : PoolState) : Prop :=
  ∀ p ∈ s.free_list, base ≤ p ∧ p < base + stride * count

end Pool

open Pool in
/-- C8 counterexample.  From a fresh 4-block pool (base 64, stride 64)
allocate returns the block at 64; after deallocating it - it is back on
the free list - owns(64) still returns true, refuting the claim that owns
is true only for currently allocated pointers. -/
theorem pool_owns_after_free_counterexample :
    (allocate (initPool 64 64 4)).2 = some 64 ∧
    (deallocate (allocate (initPool 64 64 4)).1 64).free_list.head? =
      some 64 ∧
    owns 64 64 4 64 = true ∧
    (true : Bool) ≠ false := by
  refine ⟨by decide, by decide, by decide, by decide⟩

open Pool in
/-- C8 amended.  owns(p) is a pure address-range test: it is true exactly
when p lies inside the pool storage, so every pointer returned by
allocate satisfies owns(p) = true, but owns stays true after the pointer
is deallocated (owns never consults the free list). -/
theorem pool_owns_range_amended (base stride count : Nat) (hb : 0 < base)
    (hs : 0 < stride) :
    (∀ p : Nat, owns base stride count p = true ↔
      base ≤ p ∧ p < base + stride * count) ∧
    FreeInRange base stride count (initPool base stride count) ∧
    (∀ (s s2 : PoolState) (p : Nat), FreeInRange base stride count s →
      allocate s = (s2, some p) →
      owns base stride count p = true ∧
      FreeInRange base stride count s2) ∧
    (∀ (s : PoolState) (p : Nat), FreeInRange base stride count s →
      owns base stride count p = true →
      FreeInRange base stride count (deallocate s p)) := by
  refine ⟨fun p => by simp [owns], ?_, ?_, ?_⟩
  · intro p hp
    simp only [initPool, List.mem_map, List.mem_range] at hp
    obtain ⟨i, hi, rfl⟩ := hp
    constructor
    · omega
    · have : i * stride < count * stride :=
        Nat.mul_lt_mul_of_lt_of_le hi (le_refl stride) hs
      calc base + i * stride < base + count * stride := by omega
        _ = base + stride * count := by rw [Nat.mul_comm]

  · intro s s2 p hrange halloc
    cases hl : s.free_list with
    | nil =>
      have halloc2 : (s, (none : Option Nat)) = (s2, some p) := by
        rw [← halloc]
        unfold allocate
        rw [hl]
      rw [Prod.mk.injEq] at halloc2
      exact absurd halloc2.2 (by simp)
    | cons b rest =>
      have halloc2 :
          ((⟨rest, (s.allocated_count + 1) % U64⟩ : PoolState), some b) =
          (s2, some p) := by
        rw [← halloc]
        unfold allocate
        rw [hl]
      rw [Prod.mk.injEq, Option.some.injEq] at halloc2
      obtain ⟨h1, h2⟩ := halloc2
      subst h2
      have hmem : b ∈ s.free_list := by
        rw [hl]
        exact List.mem_cons_self _ _
      refine ⟨by simp [owns, hrange b hmem], ?_⟩
      intro q hq
      rw [← h1] at hq
      refine hrange q ?_
      rw [hl]
      exact List.mem_cons_of_mem _ hq
  · intro s p hrange howns
    intro q hq
    rcases List.mem_cons.mp hq with h1 | h2
    · subst h1
      simpa [owns] using howns
    · exact hrange q h2

open Pool in
/-- Witness for the amended C8 theorem on the 4-block pool. -/
theorem pool_owns_range_amended_witness :
    (∀ p : Nat, owns 64 64 4 p = true ↔ 64 ≤ p ∧ p < 64 + 64 * 4) ∧
    FreeInRange 64 64 4 (initPool 64 64 4) ∧
    (∀ (s s2 : PoolState) (p : Nat), FreeInRange 64 64 4 s →
      allocate s = (s2, some p) →
      owns 64 64 4 p = true ∧ FreeInRange 64 64 4 s2) ∧
    (∀ (s : PoolState) (p : Nat), FreeInRange 64 64 4 s →
      owns 64 64 4 p = true →
      FreeInRange 64 64 4 (deallocate s p)) :=
  pool_owns_range_amended 64 64 4 (by decide) (by decide)

namespace Dist

/-- SPSCQueue<T, Size> of the distribution layer
(src/core/distribution/lockfree_queue.hpp).  Unlike the structures-layer
ring, here head_ is the producer index and tail_ the consumer index. -/
structure SPSCQueue (α : Type) where
  head : Nat
  tail : Nat
  buf : Nat → α

/-- Size template default, config::DEFAULT_QUEUE_SIZE = 1024 * 64. -/
def DEFAULT_QUEUE_SIZE : Nat := 65536

/-- SPSCQueue::push: next_head = (head + 1) & (Size - 1); fail when it
equals tail (queue full), else store at head and publish next_head. -/
def push (size : Nat) (q : SPSCQueue α) (item : α) : SPSCQueue α × Bool :=
  let next_head := (q.head + 1) &&& (size - 1)
  if next_head = q.tail then (q, false)
  else ({ q with buf := Function.update q.buf q.head item
                 head := next_head }, true)

/-- Statistics (src/core/types.hpp): atomic counters plus the latency
min/max/total, min initialised to UINT64_MAX. -/
structure Statistics where
  packets_received : Nat
  packets_dropped : Nat
  messages_parsed : Nat
  messages_dispatched : Nat
  parse_errors : Nat
  min_latency_ns : Nat
  max_latency_ns : Nat
  total_latency_ns : Nat
deriving DecidableEq, Repr

def Statistics.init : Statistics := ⟨0, 0, 0, 0, 0, U64 - 1, 0, 0⟩

/-- Statistics::update_latency. -/
def update_latency (st : Statistics) (latency : Nat) : Statistics :=
  let st1 := if latency < st.min_latency_ns then
    { st with min_latency_ns := latency } else st
  let st2 := if st1.max_latency_ns < latency then
    { st1 with max_latency_ns := latency } else st1
  { st2 with total_latency_ns := (st2.total_latency_ns + latency) % U64 }

/-- uint64 subtraction a - b. -/
def sub64 (a b : Nat) : Nat := (a + (U64 - b % U64)) % U64

/-- Dispatcher state (src/core/distribution/dispatcher.hpp): the ordered
per-subscriber rings and the single shared Statistics record.  No
per-subscriber counters exist. -/
structure DispatcherState where
  queues : List (SPSCQueue Itch.NormalizedMessage)
  stats : Statistics

/-- Dispatcher::dispatch: compute the latency against the record's
local_timestamp, push the record into every subscriber ring in turn
(incrementing the shared packets_dropped once per full ring and
continuing), then bump messages_dispatched and fold the latency in.  The
per-ring pushes are independent, so the loop is rendered as a map plus a
count of the failed pushes. -/
def dispatch (size now : Nat) (st : DispatcherState)
    (msg : Itch.NormalizedMessage) : DispatcherState :=
  let latency := sub64 now msg.local_timestamp
  let queues2 := st.queues.map (fun q => (push size q msg).1)
  let drops := st.queues.countP (fun q => !(push size q msg).2)
  { queues := queues2
    stats := update_latency
      { st.stats with
          packets_dropped := (st.stats.packets_dropped + drops) % U64
          messages_dispatched :=
            (st.stats.messages_dispatched + 1) % U64 }
      latency }

instance : Inhabited (SPSCQueue Itch.NormalizedMessage) :=
  ⟨⟨0, 0, fun _ => Itch.NormalizedMessage.default0⟩⟩

theorem update_latency_packets_dropped (st : Statistics) (l : Nat) :
    (update_latency st l).packets_dropped = st.packets_dropped := by
  unfold update_latency
  dsimp only
  split <;> split <;> rfl

theorem update_latency_messages_dispatched (st : Statistics) (l : Nat) :
    (update_latency st l).messages_dispatched = st.messages_dispatched := by
  unfold update_latency
  dsimp only
  split <;> split <;> rfl

theorem getD_map_lt {α β : Type} (f : α → β) (l : List α) (j : Nat)
    (hj : j < l.length) (d1 : α) (d2 : β) :
    (l.map f).getD j d2 = f (l.getD j d1) := by
  rw [List.getD_eq_getElem?_getD, List.getD_eq_getElem?_getD,
    List.getElem?_map, List.getElem?_eq_getElem hj]
  rfl

/-- A ring at capacity (head one step behind tail modulo the size). -/
def fullQ : SPSCQueue Itch.NormalizedMessage :=
  ⟨65535, 0, fun _ => Itch.NormalizedMessage.default0⟩

/-- A fresh empty ring. -/
def emptyQ : SPSCQueue Itch.NormalizedMessage :=
  ⟨0, 0, fun _ => Itch.NormalizedMessage.default0⟩

end Dist

open Dist in
/-- C9 counterexample.  The dispatcher keeps one shared packets_dropped
counter, not a drop counter per subscriber: dispatching into a state
where only subscriber 0's ring is full and into the mirrored state where
only subscriber 1's ring is full produces identical statistics (one drop
recorded in the shared counter either way), so the recorded state cannot
attribute the drop to the subscriber that suffered it, refuting the
per-subscriber counter in the claim.  (The full ring did fail its push
and the other ring did accept the record.) -/
theorem dispatcher_shared_drop_counterexample :
    (dispatch DEFAULT_QUEUE_SIZE 10
      ⟨[fullQ, emptyQ], Statistics.init⟩
      Itch.NormalizedMessage.default0).stats =
    (dispatch DEFAULT_QUEUE_SIZE 10
      ⟨[emptyQ, fullQ], Statistics.init⟩
      Itch.NormalizedMessage.default0).stats ∧
    (dispatch DEFAULT_QUEUE_SIZE 10
      ⟨[fullQ, emptyQ], Statistics.init⟩
      Itch.NormalizedMessage.default0).stats.packets_dropped = 1 ∧
    (push DEFAULT_QUEUE_SIZE fullQ Itch.NormalizedMessage.default0).2 =
      false ∧
    (push DEFAULT_QUEUE_SIZE emptyQ Itch.NormalizedMessage.default0).2 =
      true := by
  refine ⟨by decide, by decide, by decide, by decide⟩

open Dist in
/-- C9 amended.  dispatch attempts to copy the record into every
subscriber ring independently: ring j after dispatch is exactly the
result of pushing the record into ring j of the old state (so a full ring
for one subscriber never prevents delivery to the others, and a full ring
is left unchanged); the shared packets_dropped counter (the only drop
statistic) grows by the number of full rings, and messages_dispatched by
one. -/
theorem dispatcher_dispatch_amended (size now : Nat)
    (st : DispatcherState) (msg : Itch.NormalizedMessage) :
    (dispatch size now st msg).queues.length = st.queues.length ∧
    (∀ j, j < st.queues.length →
      (dispatch size now st msg).queues.getD j default =
        (push size (st.queues.getD j default) msg).1) ∧
    (∀ j, j < st.queues.length →
      (push size (st.queues.getD j default) msg).2 = false →
      (dispatch size now st msg).queues.getD j default =
        st.queues.getD j default) ∧
    (dispatch size now st msg).stats.packets_dropped =
      (st.stats.packets_dropped +
        st.queues.countP (fun q => !(push size q msg).2)) % U64 ∧
    (dispatch size now st msg).stats.messages_dispatched =
      (st.stats.messages_dispatched + 1) % U64 := by
  refine ⟨by simp [dispatch], ?_, ?_, ?_, ?_⟩
  · intro j hj
    show ((st.queues.map (fun q => (push size q msg).1)).getD j default) = _
    rw [getD_map_lt _ _ j hj default default]
  · intro j hj hfail
    show ((st.queues.map (fun q => (push size q msg).1)).getD j default) = _
    rw [getD_map_lt _ _ j hj default default]
    revert hfail
    unfold push
    dsimp only
    split
    · intro; rfl
    · intro hab
      exact absurd hab (by simp)
  · show (update_latency _ _).packets_dropped = _
    rw [update_latency_packets_dropped]
  · show (update_latency _ _).messages_dispatched = _
    rw [update_latency_messages_dispatched]

end HftSpec

